import Mathlib

/-!
# DNS stub resolver (`Internet/DNS/dns.c`)

A shallow embedding of the wire codec (`get16`, `put16`, `parse_name`,
`dns_question`, `dns_answer`, `parseDNSMSG`, `dns_makequery`) and of the polling
state machine (`check_DNS_timeout`, `DNS_run`, `DNS_time_handler`), followed by
theorems about them.

Conventions.
* A `uint8_t *` is an index into a memory `Mem`; every load is reduced modulo 256.
* Machine integers are `Nat` or `Int` with the conversions of the C types written out.
* The loops of `parse_name` and `dns_makequery` are run on a step budget; the
  result is `none` only when the budget is exhausted, and the lemmas
  `parse_name_loop_total` and `makequery_loop_total` show that this never happens.
* The constants of `dns.h` are the fields of `Config`.
-/

namespace DNS

/-! ## Constants of `dns.h` -/

/-- The configuration constants that `dns.c` takes from `dns.h`. -/
structure Config where
  MAX_DOMAIN_NAME : Nat
  MAX_DNS_BUF_SIZE : Nat
  MAX_DNS_RETRY : Nat
  DNS_WAIT_TIME : Nat
  DNS_MSG_ID : Nat

/-- `#define MAXCNAME (MAX_DOMAIN_NAME + (MAX_DOMAIN_NAME>>1))`. -/
def MAXCNAME (cfg : Config) : Nat := cfg.MAX_DOMAIN_NAME + (cfg.MAX_DOMAIN_NAME >>> 1)

def TYPE_A : Nat := 1
def TYPE_NS : Nat := 2
def TYPE_CNAME : Nat := 5
def TYPE_SOA : Nat := 6
def TYPE_MB : Nat := 7
def TYPE_MG : Nat := 8
def TYPE_MR : Nat := 9
def TYPE_PTR : Nat := 12
def TYPE_HINFO : Nat := 13
def TYPE_MX : Nat := 15
def TYPE_TXT : Nat := 16

/-! ## Memory and machine integers -/

/-- Memory seen through a `uint8_t *`: `m i` is the byte stored at index `i`. -/
abbrev Mem := Nat → Nat

/-- Load of one `uint8_t`. -/
def rd (m : Mem) (i : Nat) : Nat := m i % 256

/-- Conversion of an integer to `int16_t` (two's complement). -/
def toInt16 (x : Int) : Int := (x + 32768) % 65536 - 32768

/-- Memory holding the bytes `bs` from index 0 on, and zero elsewhere. -/
def memOf (bs : List Nat) : Mem := fun i => bs.getD i 0

/-- Store of the bytes `bs` from index `off` on. -/
def writeBytes (m : Mem) (off : Nat) (bs : List Nat) : Mem :=
  fun i => if off ≤ i ∧ i < off + bs.length then bs.getD (i - off) 0 else m i

/-- The `n` bytes of `m` from index `off` on. -/
def readBytes (m : Mem) (off : Nat) : Nat → List Nat
  | 0 => []
  | n + 1 => rd m off :: readBytes m (off + 1) n

/-- The bytes of a string literal. -/
def bytesOf (s : String) : List Nat := s.toList.map Char.toNat

/-- `uint16_t get16(uint8_t * s)`: `i = *s++ << 8; i = i + *s;`. -/
def get16 (m : Mem) (s : Nat) : Nat :=
  ((rd m s <<< 8) % 65536 + rd m (s + 1)) % 65536

/-- `uint8_t * put16(uint8_t * s, uint16_t i)`: the two bytes stored, `i >> 8` then `i`. -/
def put16 (i : Nat) : List Nat := [(i >>> 8) % 256, i % 256]

/-! ## `parse_name` -/

/-- Result of `parse_name`: the value returned and the bytes stored through `buf`
(in order, from `buf[0]` on; they are stored whether or not the call fails). -/
structure ParseName where
  ret : Int
  out : List Nat
deriving DecidableEq

/-- The locals of `parse_name` after the head of one loop iteration (the length
byte has been read and an indirection, if any, followed). -/
structure Seg where
  slen : Nat
  cp : Nat
  clen : Int
  indirect : Bool
deriving DecidableEq

/-- Head of the loop body of `parse_name`:
`slen = *cp++; if (!indirect) clen++;
 if ((slen & 0xc0) == 0xc0) { if (!indirect) clen++; indirect = 1;
   cp = &msg[((slen & 0x3f)<<8) + *cp]; slen = *cp++; }`. -/
def read_seg (msg : Mem) (cp : Nat) (clen : Int) (indirect : Bool) : Seg :=
  let slen := rd msg cp
  let cp1 := cp + 1
  let clen1 := if indirect then clen else clen + 1
  if slen &&& 0xc0 = 0xc0 then
    let clen2 := if indirect then clen1 else clen1 + 1
    let tgt := ((slen &&& 0x3f) <<< 8) + rd msg cp1
    { slen := rd msg tgt, cp := tgt + 1, clen := clen2, indirect := true }
  else
    { slen := slen, cp := cp1, clen := clen1, indirect := indirect }

/-- Tail of `parse_name`, after the loop:
`if (nseg == 0) { *buf++ = '.'; len--; } *buf++ = 0; len--; return clen;`. -/
def parse_name_finish (clen : Int) (nseg : Nat) (buf : List Nat) : ParseName :=
  { ret := clen, out := (if nseg = 0 then buf ++ [46] else buf) ++ [0] }

/-- The `for (;;)` loop of `parse_name`, on a step budget (first argument).
`cp` is the read cursor, `len` the remaining output budget (`int16_t`), `buf` the
bytes stored so far. -/
def parse_name_loop (msg : Mem) :
    Nat → Nat → Int → Int → Bool → Nat → List Nat → Option ParseName
  | 0, _, _, _, _, _, _ => none
  | fuel + 1, cp, len, clen, indirect, nseg, buf =>
    let s := read_seg msg cp clen indirect
    if s.slen = 0 then some (parse_name_finish s.clen nseg buf)
    else
      let len1 := toInt16 (len - ((s.slen : Int) + 1))
      if len1 < 0 then some { ret := -1, out := buf }
      else
        parse_name_loop msg fuel (s.cp + s.slen) len1
          (if s.indirect then s.clen else s.clen + s.slen) s.indirect (nseg + 1)
          (buf ++ readBytes msg s.cp s.slen ++ [46])

/-- Step budget given to the loop of `parse_name`; see `parse_name_loop_total`. -/
def parseFuel : Nat := 32768

theorem toInt16_of_range (x : Int) (h1 : -32768 ≤ x) (h2 : x ≤ 32767) : toInt16 x = x := by
  unfold toInt16; omega

theorem toInt16_range (x : Int) : -32768 ≤ toInt16 x ∧ toInt16 x ≤ 32767 := by
  unfold toInt16; omega

theorem rd_lt (m : Mem) (i : Nat) : rd m i < 256 := by
  unfold rd; omega

theorem read_seg_slen_lt (msg : Mem) (cp : Nat) (clen : Int) (indirect : Bool) :
    (read_seg msg cp clen indirect).slen < 256 := by
  unfold read_seg
  simp only
  split
  · exact rd_lt _ _
  · exact rd_lt _ _

/-- With a non-negative budget `len`, a step budget above `len / 2` is never exhausted:
every iteration that does not leave the loop lowers `len` by at least 2. -/
theorem parse_name_loop_nonneg (msg : Mem) :
    ∀ (fuel cp : Nat) (len clen : Int) (indirect : Bool) (nseg : Nat) (buf : List Nat),
      0 ≤ len → len ≤ 32767 → len < 2 * (fuel : Int) →
      (parse_name_loop msg fuel cp len clen indirect nseg buf).isSome = true := by
  intro fuel
  induction fuel with
  | zero => intro cp len clen indirect nseg buf h0 _ h2; omega
  | succ n ih =>
    intro cp len clen indirect nseg buf h0 h1 h2
    unfold parse_name_loop
    simp only
    have hs := read_seg_slen_lt msg cp clen indirect
    by_cases hz : (read_seg msg cp clen indirect).slen = 0
    · simp [hz]
    · rw [if_neg hz]
      have hconv : toInt16 (len - (((read_seg msg cp clen indirect).slen : Int) + 1))
          = len - (((read_seg msg cp clen indirect).slen : Int) + 1) :=
        toInt16_of_range _ (by omega) (by omega)
      rw [hconv]
      by_cases hneg : len - (((read_seg msg cp clen indirect).slen : Int) + 1) < 0
      · simp [hneg]
      · rw [if_neg hneg]
        apply ih
        · omega
        · omega
        · push_cast at h2 ⊢; omega

/-- The loop of `parse_name` leaves within `parseFuel` iterations, whatever the
message, the cursor and the `int16_t` budget. -/
theorem parse_name_loop_total (msg : Mem) (cp : Nat) (len clen : Int) (indirect : Bool)
    (nseg : Nat) (buf : List Nat) :
    (parse_name_loop msg parseFuel cp (toInt16 len) clen indirect nseg buf).isSome = true := by
  have hr := toInt16_range len
  show (parse_name_loop msg (32767 + 1) cp (toInt16 len) clen indirect nseg buf).isSome = true
  unfold parse_name_loop
  simp only
  by_cases hz : (read_seg msg cp clen indirect).slen = 0
  · simp [hz]
  · rw [if_neg hz]
    have hr1 := toInt16_range (toInt16 len - (((read_seg msg cp clen indirect).slen : Int) + 1))
    by_cases hneg : toInt16 (toInt16 len - (((read_seg msg cp clen indirect).slen : Int) + 1)) < 0
    · simp [hneg]
    · rw [if_neg hneg]
      apply parse_name_loop_nonneg
      · omega
      · omega
      · omega

/-- `int parse_name(uint8_t * msg, uint8_t * compressed, char * buf, int16_t len)`.
`compressed` is given as an index into `msg`; `len` is converted to `int16_t` as the
argument is passed. -/
def parse_name (msg : Mem) (compressed : Nat) (len : Int) : ParseName :=
  (parse_name_loop msg parseFuel compressed (toInt16 len) 0 false 0 []).get
    (parse_name_loop_total msg compressed len 0 false 0 [])

/-! ## `dns_question`, `dns_answer`, `parseDNSMSG` -/

/-- `uint8_t * dns_question(uint8_t * msg, uint8_t * cp)`: the pointer to the next
record as an index into `msg`, or `none` for the null pointer. -/
def dns_question (cfg : Config) (msg : Mem) (cp : Nat) : Option Nat :=
  let len := (parse_name msg cp (MAXCNAME cfg)).ret
  if len = -1 then none
  else some (cp + len.toNat + 2 + 2)

/-- Result of `dns_answer`: the pointer returned (`none` for the null pointer) and
the contents of `ip_from_dns` after the call. -/
structure Answer where
  cp : Option Nat
  ip : List Nat
deriving DecidableEq

/-- `uint8_t * dns_answer(uint8_t * msg, uint8_t * cp, uint8_t * ip_from_dns)`. -/
def dns_answer (cfg : Config) (msg : Mem) (cp : Nat) (ip_from_dns : List Nat) : Answer :=
  let len := (parse_name msg cp (MAXCNAME cfg)).ret
  if len = -1 then { cp := none, ip := ip_from_dns }
  else
    let cp := cp + len.toNat
    let type := get16 msg cp
    let cp := cp + 2 + 2 + 4 + 2
    if type = TYPE_A then
      { cp := some (cp + 4),
        ip := [rd msg cp, rd msg (cp + 1), rd msg (cp + 2), rd msg (cp + 3)] }
    else if type = TYPE_CNAME ∨ type = TYPE_MB ∨ type = TYPE_MG ∨ type = TYPE_MR
        ∨ type = TYPE_NS ∨ type = TYPE_PTR then
      let len := (parse_name msg cp (MAXCNAME cfg)).ret
      if len = -1 then { cp := none, ip := ip_from_dns }
      else { cp := some (cp + len.toNat), ip := ip_from_dns }
    else if type = TYPE_HINFO then
      let len := rd msg cp
      let cp := cp + 1 + len
      let len := rd msg cp
      let cp := cp + 1 + len
      { cp := some cp, ip := ip_from_dns }
    else if type = TYPE_MX then
      let cp := cp + 2
      let len := (parse_name msg cp (MAXCNAME cfg)).ret
      if len = -1 then { cp := none, ip := ip_from_dns }
      else { cp := some (cp + len.toNat), ip := ip_from_dns }
    else if type = TYPE_SOA then
      let len := (parse_name msg cp (MAXCNAME cfg)).ret
      if len = -1 then { cp := none, ip := ip_from_dns }
      else
        let cp := cp + len.toNat
        let len := (parse_name msg cp (MAXCNAME cfg)).ret
        if len = -1 then { cp := none, ip := ip_from_dns }
        else { cp := some (cp + len.toNat + 4 + 4 + 4 + 4 + 4), ip := ip_from_dns }
    else
      { cp := some cp, ip := ip_from_dns }

/-- The C `struct dhdr`. -/
structure dhdr where
  id : Nat
  qr : Nat
  opcode : Nat
  aa : Nat
  tc : Nat
  rd : Nat
  ra : Nat
  rcode : Nat
  qdcount : Nat
  ancount : Nat
  nscount : Nat
  arcount : Nat
deriving DecidableEq

/-- Header part of `parseDNSMSG`: the fields stored into `*pdhdr`. -/
def parse_header (msg : Mem) : dhdr :=
  let tmp := get16 msg 2
  { id := get16 msg 0
    qr := if tmp &&& 0x8000 ≠ 0 then 1 else 0
    opcode := ((tmp >>> 11) &&& 0xf) % 256
    aa := if tmp &&& 0x0400 ≠ 0 then 1 else 0
    tc := if tmp &&& 0x0200 ≠ 0 then 1 else 0
    rd := if tmp &&& 0x0100 ≠ 0 then 1 else 0
    ra := if tmp &&& 0x0080 ≠ 0 then 1 else 0
    rcode := (tmp &&& 0xf) % 256
    qdcount := get16 msg 4
    ancount := get16 msg 6
    nscount := get16 msg 8
    arcount := get16 msg 10 }

/-- Question loop of `parseDNSMSG`, run `n` more times from the cursor `cp`:
`cp = dns_question(msg, cp); if(!cp) return -1;`. The result is `none` when the
function returns -1 inside the loop. -/
def question_loop (cfg : Config) (msg : Mem) : Nat → Nat → Option Nat
  | 0, cp => some cp
  | n + 1, cp =>
    match dns_question cfg msg cp with
    | none => none
    | some cp1 => question_loop cfg msg n cp1

/-- Answer loop of `parseDNSMSG`, run `n` more times from the cursor `cp`:
`cp = dns_answer(msg, cp, ip_from_dns); if(!cp) return -1;`. The `cp` of the result
is `none` when the function returns -1 inside the loop. -/
def answer_loop (cfg : Config) (msg : Mem) : Nat → Nat → List Nat → Answer
  | 0, cp, ip => { cp := some cp, ip := ip }
  | n + 1, cp, ip =>
    let a := dns_answer cfg msg cp ip
    match a.cp with
    | none => a
    | some cp1 => answer_loop cfg msg n cp1 a.ip

/-- Result of `parseDNSMSG`: the value returned, the header stored into `*pdhdr`
and the contents of `ip_from_dns` after the call. -/
structure ParseMsg where
  ret : Int
  hdr : dhdr
  ip : List Nat
deriving DecidableEq

/-- `int8_t parseDNSMSG(struct dhdr * pdhdr, uint8_t * pbuf, uint8_t * ip_from_dns)`. -/
def parseDNSMSG (cfg : Config) (pbuf : Mem) (ip_from_dns : List Nat) : ParseMsg :=
  let hdr := parse_header pbuf
  match question_loop cfg pbuf hdr.qdcount 12 with
  | none => { ret := -1, hdr := hdr, ip := ip_from_dns }
  | some cp =>
    let a := answer_loop cfg pbuf hdr.ancount cp ip_from_dns
    match a.cp with
    | none => { ret := -1, hdr := hdr, ip := a.ip }
    | some _ =>
      if hdr.rcode = 0 then { ret := 1, hdr := hdr, ip := a.ip }
      else { ret := 0, hdr := hdr, ip := a.ip }

/-! ## `dns_makequery` -/

/-- `strchr(s, c)` on the characters of a C string (its terminating NUL left out):
the index of the first `c`, or `none` for the null pointer. -/
def strchr (s : List Nat) (c : Nat) : Option Nat :=
  match s with
  | [] => none
  | x :: xs => if x = c then some 0 else (strchr xs c).map (· + 1)

/-- The `n` bytes stored by `strncpy(dst, s, n)`: the characters of `s`, cut at `n`,
and zero padding up to `n`. -/
def strncpy (s : List Nat) (n : Nat) : List Nat :=
  (s.take n).map (· % 256) ++ List.replicate (n - s.length) 0

/-- The name loop of `dns_makequery`, on a step budget (first argument). `dname` is
the rest of the string, `dlen` the `uint16_t` of that name, `out` the bytes stored
so far; the result is the bytes stored when the loop is left. -/
def makequery_loop : Nat → List Nat → Nat → List Nat → Option (List Nat)
  | 0, _, _, _ => none
  | fuel + 1, dname, dlen, out =>
    let cp1 := strchr dname 46
    let len := match cp1 with
      | some k => k % 65536
      | none => dlen
    let out1 := out ++ [len % 256]
    if len = 0 then some out1
    else
      let out2 := out1 ++ strncpy dname len
      match cp1 with
      | none => some (out2 ++ [0])
      | some _ =>
        makequery_loop fuel (dname.drop (len + 1)) ((dlen + 65536 - (len + 1)) % 65536) out2

theorem strchr_lt (s : List Nat) (c k : Nat) (h : strchr s c = some k) : k < s.length := by
  induction s generalizing k with
  | nil => simp [strchr] at h
  | cons x xs ih =>
    unfold strchr at h
    by_cases hx : x = c
    · simp [hx] at h; subst h; simp
    · simp only [if_neg hx, Option.map_eq_some'] at h
      obtain ⟨j, hj, rfl⟩ := h
      have := ih j hj
      simp; omega

/-- The name loop of `dns_makequery` is left within `dname.length + 1` iterations. -/
theorem makequery_loop_total :
    ∀ (fuel : Nat) (dname : List Nat) (dlen : Nat) (out : List Nat),
      dname.length < fuel → (makequery_loop fuel dname dlen out).isSome = true := by
  intro fuel
  induction fuel with
  | zero => intro dname dlen out h; omega
  | succ n ih =>
    intro dname dlen out h
    unfold makequery_loop
    cases hc : strchr dname 46 with
    | none =>
      simp only
      split <;> simp
    | some k =>
      simp only
      have hk := strchr_lt dname 46 k hc
      split
      · simp
      · apply ih
        simp only [List.length_drop]
        omega

/-- Result of `dns_makequery`: the value returned, the bytes stored from `buf[0]` on,
and `DNS_MSGID` after the call. -/
structure MakeQuery where
  ret : Int
  bytes : List Nat
  msgid : Nat
deriving DecidableEq

/-- `int16_t dns_makequery(uint16_t op, char * name, uint8_t * buf, uint16_t len)`.
`msgid` is `DNS_MSGID` before the call and `name` the characters of the C string
`name` (its terminating NUL left out). The argument `len` is overwritten before it
is read. The source copies `name` into `char sname[MAXCNAME]` with `strcpy` and
works on the copy: the definition gives what the call does when the copy stays
inside `sname` (`snameFits`); on the other names the source has no defined
behaviour, and what is claimed of the source about `dns_makequery` is stated for
names with `snameFits`. The capacity of `buf` is not looked at by the source. -/
def dns_makequery (msgid : Nat) (op : Nat) (name : List Nat) (_len : Nat) : MakeQuery :=
  let id := (msgid + 1) % 65536
  let p := ((op <<< 11) ||| 0x0100) % 65536
  let hdr := put16 id ++ put16 p ++ put16 1 ++ put16 0 ++ put16 0 ++ put16 0
  let body := (makequery_loop (name.length + 1) name (name.length % 65536) hdr).get
    (makequery_loop_total (name.length + 1) name (name.length % 65536) hdr (Nat.lt_succ_self _))
  let bytes := body ++ put16 0x0001 ++ put16 0x0001
  { ret := toInt16 ((bytes.length % 4294967296 : Nat) : Int), bytes := bytes, msgid := id }

/-- In `dns_makequery`, `strcpy(sname, name)` stays inside `char sname[MAXCNAME]`:
the characters of `name` and the terminating NUL are at most `MAXCNAME` bytes. -/
def snameFits (cfg : Config) (name : List Nat) : Prop := name.length + 1 ≤ MAXCNAME cfg

instance (cfg : Config) (name : List Nat) : Decidable (snameFits cfg name) := by
  unfold snameFits; infer_instance

/-! ## The polling state machine -/

def DNS_STATE_IDLE : Nat := 0
def DNS_STATE_SOCK_CREATE : Nat := 1
def DNS_STATE_SEND_REQUEST : Nat := 2
def DNS_STATE_REPLY_RCVD : Nat := 3
def DNS_STATE_FAILED : Nat := 4
def DNS_STATE_FINISHED : Nat := 5

def IPPORT_DOMAIN : Nat := 53

/-- Modelled from the spec: the calls `dns.c` makes to the transport collaborator
declared in `socket.h` (open, sendTo, close). `sendto buf dst port` records the
`len` bytes of the buffer handed to `sendto(DNS_SOCKET, pDNSMSG, len, dns_ip, port)`. -/
inductive SockCall where
  | socket : SockCall
  | sendto : List Nat → List Nat → Nat → SockCall
  | close : SockCall
deriving DecidableEq

/-- Modelled from the spec: what the transport collaborator answers to one poll
(pollReceive, non-blocking). `rsr` is the value of `getSn_RX_RSR(DNS_SOCKET)`, zero
when no data is pending; `data` is the pending datagram, of which
`recvfrom(DNS_SOCKET, buf, len, ...)` stores the first `len` bytes (at most) into
`buf` and returns their number. -/
structure Rx where
  rsr : Nat
  data : List Nat
deriving DecidableEq

/-- The transport has nothing to deliver. -/
def noData : Rx := { rsr := 0, data := [] }

/-- The globals of `dns.c`, the `static` local `len` of `DNS_run`, the contents of
the buffer `pDNSMSG` points to, and the calls made to the transport so far. -/
structure Ctx where
  pDNSMSG : Mem
  DNS_MSGID : Nat
  dns_1s_tick : Nat
  retry_count : Nat
  dnsState : Nat
  len : Nat
  calls : List SockCall

/-- Program start (the statics are zero) followed by `DNS_init(s, buf)` on the
buffer contents `buf`. -/
def DNS_init (cfg : Config) (buf : Mem) : Ctx :=
  { pDNSMSG := buf, DNS_MSGID := cfg.DNS_MSG_ID % 65536, dns_1s_tick := 0, retry_count := 0,
    dnsState := DNS_STATE_IDLE, len := 0, calls := [] }

/-- `int8_t check_DNS_timeout(void)`: the value returned and the context after. -/
def check_DNS_timeout (cfg : Config) (c : Ctx) : Int × Ctx :=
  if c.dns_1s_tick ≥ cfg.DNS_WAIT_TIME then
    let c1 := { c with dns_1s_tick := 0 }
    if c1.retry_count ≥ cfg.MAX_DNS_RETRY then
      (-1, { c1 with retry_count := 0 })
    else
      (0, { c1 with retry_count := (c1.retry_count + 1) % 256 })
  else
    (1, c)

/-- `void DNS_time_handler(void)`: `dns_1s_tick++` on a `uint32_t`. -/
def DNS_time_handler (c : Ctx) : Ctx :=
  { c with dns_1s_tick := (c.dns_1s_tick + 1) % 4294967296 }

/-- Result of `DNS_run`: the value returned, the context after, and the contents
of `ip_from_dns` after the call. -/
structure Run where
  ret : Int
  ctx : Ctx
  ip : List Nat

/-- `int8_t DNS_run(uint8_t * dns_ip, uint8_t * name, uint8_t * ip_from_dns)`, on the
context `c` and the answer `rx` of the transport to this invocation. -/
def DNS_run (cfg : Config) (c : Ctx) (rx : Rx) (dns_ip name ip_from_dns : List Nat) : Run :=
  let ret : Int := -2
  if c.dnsState = DNS_STATE_IDLE then
    let q := dns_makequery c.DNS_MSGID 0 name (cfg.MAX_DNS_BUF_SIZE % 65536)
    { ret := ret
      ctx := { c with
        retry_count := 0
        dns_1s_tick := 0
        calls := c.calls ++ [SockCall.socket]
        DNS_MSGID := q.msgid
        pDNSMSG := writeBytes c.pDNSMSG 0 q.bytes
        len := (q.ret % 65536).toNat
        dnsState := DNS_STATE_SOCK_CREATE }
      ip := ip_from_dns }
  else if c.dnsState = DNS_STATE_SOCK_CREATE then
    { ret := ret
      ctx := { c with
        calls := c.calls ++ [SockCall.sendto (readBytes c.pDNSMSG 0 c.len) dns_ip IPPORT_DOMAIN]
        dnsState := DNS_STATE_SEND_REQUEST }
      ip := ip_from_dns }
  else if c.dnsState = DNS_STATE_SEND_REQUEST then
    let len0 := rx.rsr % 65536
    let r : Run :=
      if len0 > 0 then
        let len1 := if len0 > cfg.MAX_DNS_BUF_SIZE then cfg.MAX_DNS_BUF_SIZE % 65536 else len0
        let got := (rx.data.take len1).map (· % 256)
        let buf := writeBytes c.pDNSMSG 0 got
        let m := parseDNSMSG cfg buf ip_from_dns
        { ret := m.ret, ctx := { c with len := got.length % 65536, pDNSMSG := buf }, ip := m.ip }
      else
        { ret := ret, ctx := { c with len := len0 }, ip := ip_from_dns }
    let t := check_DNS_timeout cfg r.ctx
    if t.1 < 0 then
      { r with ctx := { t.2 with dnsState := DNS_STATE_FAILED } }
    else if t.1 = 0 then
      { r with ctx := { t.2 with dnsState := DNS_STATE_SOCK_CREATE } }
    else
      { r with ctx := t.2 }
  else if c.dnsState = DNS_STATE_REPLY_RCVD then
    { ret := ret
      ctx := { c with calls := c.calls ++ [SockCall.close], dnsState := DNS_STATE_FINISHED }
      ip := ip_from_dns }
  else if c.dnsState = DNS_STATE_FAILED then
    { ret := ret
      ctx := { c with calls := c.calls ++ [SockCall.close], dnsState := DNS_STATE_IDLE }
      ip := ip_from_dns }
  else
    { ret := ret, ctx := c, ip := ip_from_dns }

/-- What happens between two observations of the machine: one tick of the timing
source, or one invocation of `DNS_run` with the transport answering `rx`. -/
inductive Event where
  | tick : Event
  | run : Rx → Event
deriving DecidableEq

/-- One event applied to the context (the resolver address, the name and the
contents of `ip_from_dns` are those of the caller). -/
def step (cfg : Config) (dns_ip name : List Nat) (s : Ctx × List Nat) : Event → Ctx × List Nat
  | Event.tick => (DNS_time_handler s.1, s.2)
  | Event.run rx =>
    let r := DNS_run cfg s.1 rx dns_ip name s.2
    (r.ctx, r.ip)

/-- A sequence of events applied in order. -/
def exec (cfg : Config) (dns_ip name : List Nat) (s : Ctx × List Nat) (evs : List Event) :
    Ctx × List Nat :=
  evs.foldl (step cfg dns_ip name) s

/-- Example values for the constants of `dns.h`, used for the concrete examples. -/
def exampleConfig : Config :=
  { MAX_DOMAIN_NAME := 16, MAX_DNS_BUF_SIZE := 256, MAX_DNS_RETRY := 2, DNS_WAIT_TIME := 3,
    DNS_MSG_ID := 0x1122 }

/-! ## Notions used to state the claims -/

/-- The dotted string of a list of labels: the labels separated by single dots. -/
def dotted : List (List Nat) → List Nat
  | [] => []
  | [l] => l
  | l :: l2 :: ls => l ++ 46 :: dotted (l2 :: ls)

/-- The wire form of a list of labels: each label as one length byte followed by
its bytes (the closing zero byte is not included). -/
def encodeLabels : List (List Nat) → List Nat
  | [] => []
  | l :: ls => (l.length :: l) ++ encodeLabels ls

/-- A label of a host name: non-empty, at most `maxLen` bytes, and made of bytes
of a C string other than the dot. -/
def ValidLabel (maxLen : Nat) (l : List Nat) : Prop :=
  l ≠ [] ∧ l.length ≤ maxLen ∧ ∀ b ∈ l, b ≠ 46 ∧ b ≠ 0 ∧ b < 256

instance (maxLen : Nat) (l : List Nat) : Decidable (ValidLabel maxLen l) := by
  unfold ValidLabel; infer_instance

/-- The memory `msg` holds the bytes `bs` from index `off` on. -/
def HoldsAt (msg : Mem) : Nat → List Nat → Prop
  | _, [] => True
  | off, b :: bs => msg off = b ∧ HoldsAt msg (off + 1) bs

/-- Whether `msg` holds `bs` from `off` on can be computed. -/
def holdsAtDec (msg : Mem) : (off : Nat) → (bs : List Nat) → Decidable (HoldsAt msg off bs)
  | _, [] => isTrue trivial
  | off, b :: bs =>
    match Nat.decEq (msg off) b, holdsAtDec msg (off + 1) bs with
    | isTrue h1, isTrue h2 => isTrue ⟨h1, h2⟩
    | isFalse h1, _ => isFalse (fun h => h1 h.1)
    | _, isFalse h2 => isFalse (fun h => h2 h.2)

instance (msg : Mem) (off : Nat) (bs : List Nat) : Decidable (HoldsAt msg off bs) :=
  holdsAtDec msg off bs

/-- The decoded form of a list of labels: every label followed by a dot. -/
def dottedDot : List (List Nat) → List Nat
  | [] => []
  | l :: ls => l ++ 46 :: dottedDot ls

/-- The number of bytes a name field occupies from the cursor `cp` on, as the wire
format defines it: `n` is the sum of (label length + 1) over the labels that precede
the first compression pointer, plus 2 for that pointer, or plus 1 for the closing
zero byte when the field has no pointer. -/
inductive NameField (msg : Mem) : Nat → Nat → Prop where
  | zero (cp : Nat) : rd msg cp = 0 → NameField msg cp 1
  | pointer (cp : Nat) : rd msg cp &&& 0xc0 = 0xc0 → NameField msg cp 2
  | label (cp n : Nat) : rd msg cp ≠ 0 → rd msg cp &&& 0xc0 ≠ 0xc0 →
      NameField msg (cp + 1 + rd msg cp) n → NameField msg cp (rd msg cp + 1 + n)

/-- The big-endian flags word in bytes 2-3 of a message. -/
def flagsWord (msg : Mem) : Nat := rd msg 2 * 256 + rd msg 3

/-- A name inside the rdata of a record of type `type` whose rdata starts at
`rdata` fails to decode: the single name of a CNAME, MB, MG, MR, NS or PTR record,
the exchanger name of an MX record (behind the 2 preference bytes), or one of the
two names of an SOA record. -/
def rdataNameFails (cfg : Config) (msg : Mem) (type rdata : Nat) : Prop :=
  ((type = TYPE_CNAME ∨ type = TYPE_MB ∨ type = TYPE_MG ∨ type = TYPE_MR ∨ type = TYPE_NS
      ∨ type = TYPE_PTR) ∧ (parse_name msg rdata (MAXCNAME cfg)).ret = -1)
  ∨ (type = TYPE_MX ∧ (parse_name msg (rdata + 2) (MAXCNAME cfg)).ret = -1)
  ∨ (type = TYPE_SOA ∧ ((parse_name msg rdata (MAXCNAME cfg)).ret = -1
      ∨ (parse_name msg (rdata + (parse_name msg rdata (MAXCNAME cfg)).ret.toNat)
          (MAXCNAME cfg)).ret = -1))

/-- Some name inside the answer record at `cp` fails to decode: the owner name, or
(the owner name decoding to a field of `ret` bytes, followed by the 10 bytes of
type, class, ttl and rdata length) a name inside the rdata. -/
def answerNameFails (cfg : Config) (msg : Mem) (cp : Nat) : Prop :=
  (parse_name msg cp (MAXCNAME cfg)).ret = -1
  ∨ rdataNameFails cfg msg
      (get16 msg (cp + (parse_name msg cp (MAXCNAME cfg)).ret.toNat))
      (cp + (parse_name msg cp (MAXCNAME cfg)).ret.toNat + 10)

/-- The name of some declared question record fails to decode: the `i`-th record
(`i < qdcount`), reached at `c` after the `i` records before it, has such a name. -/
def questionSectionFails (cfg : Config) (msg : Mem) : Prop :=
  ∃ i, i < get16 msg 4 ∧ ∃ c, question_loop cfg msg i 12 = some c
    ∧ (parse_name msg c (MAXCNAME cfg)).ret = -1

/-- Some name inside a declared answer record fails to decode: the questions end
at `cpA` and the `j`-th answer record (`j < ancount`), reached at `c` after the `j`
records before it, has such a name. -/
def answerSectionFails (cfg : Config) (msg : Mem) : Prop :=
  ∃ cpA, question_loop cfg msg (get16 msg 4) 12 = some cpA
    ∧ ∃ j, j < get16 msg 6 ∧ ∃ c, (answer_loop cfg msg j cpA []).cp = some c
      ∧ answerNameFails cfg msg c

/-- The invocation of `DNS_run` on the context `c` finds the request sent and the
tick count at or above `DNS_WAIT_TIME`: an expiry of the wait time. -/
def expired (cfg : Config) (c : Ctx) : Bool :=
  c.dnsState == DNS_STATE_SEND_REQUEST && decide (cfg.DNS_WAIT_TIME ≤ c.dns_1s_tick)

/-- The number of expiries met by the invocations of `DNS_run` among `evs`, run
from `s`. -/
def expiries (cfg : Config) (dns_ip name : List Nat) : Ctx × List Nat → List Event → Nat
  | _, [] => 0
  | s, Event.tick :: es => expiries cfg dns_ip name (step cfg dns_ip name s Event.tick) es
  | s, Event.run rx :: es =>
    (if expired cfg s.1 then 1 else 0)
      + expiries cfg dns_ip name (step cfg dns_ip name s (Event.run rx)) es

/-- The transport never delivers data: every event is a tick or an invocation of
`DNS_run` that finds nothing to receive. -/
def quiet (evs : List Event) : Prop := ∀ e ∈ evs, e = Event.tick ∨ e = Event.run noData

instance (evs : List Event) : Decidable (quiet evs) := by
  unfold quiet; infer_instance

/-- The response used as the concrete example of the success path: id 0x1123, flags
0x8180 (response, rcode 0), one question "www.example.com" A IN, one answer (name =
pointer to offset 12, type A, class IN, ttl 60, 4 bytes of rdata 93.184.216.34). -/
def exampleResponse : Mem :=
  memOf ([0x11, 0x23, 0x81, 0x80, 0, 1, 0, 1, 0, 0, 0, 0]
    ++ ([3] ++ bytesOf "www" ++ [7] ++ bytesOf "example" ++ [3] ++ bytesOf "com" ++ [0])
    ++ [0, 1, 0, 1]
    ++ [0xC0, 12, 0, 1, 0, 1, 0, 0, 0, 60, 0, 4, 93, 184, 216, 34])

/-- A schedule for `exampleConfig` (wait time 3, 2 retries): the query is sent, and
three times over three ticks pass; the two invocations that follow the first two
waits are the two retries, and the third wait has just elapsed. -/
def exampleSchedule : List Event :=
  [Event.run noData, Event.run noData, Event.tick, Event.tick, Event.tick,
   Event.run noData, Event.run noData, Event.tick, Event.tick, Event.tick,
   Event.run noData, Event.run noData, Event.tick, Event.tick, Event.tick]

/-- A response with two answers and no question: a TXT record (root name, class IN,
ttl 60, rdata length 1, rdata: one empty character string) from offset 12 to offset
23, then from offset 24 on an A record (root name, class IN, ttl 60, rdata
1.2.3.4). -/
def exampleTxtResponse : Mem :=
  memOf ([0x11, 0x23, 0x81, 0x80, 0, 0, 0, 2, 0, 0, 0, 0]
    ++ [0, 0, 16, 0, 1, 0, 0, 0, 60, 0, 1, 0]
    ++ [0, 0, 1, 0, 1, 0, 0, 0, 60, 0, 4, 1, 2, 3, 4])

/-- A response with two answers and no question, both A records with the root
name: the first carries 1.2.3.4, the second 5.6.7.8. -/
def exampleTwoAResponse : Mem :=
  memOf ([0x11, 0x23, 0x81, 0x80, 0, 0, 0, 2, 0, 0, 0, 0]
    ++ [0, 0, 1, 0, 1, 0, 0, 0, 60, 0, 4, 1, 2, 3, 4]
    ++ [0, 0, 1, 0, 1, 0, 0, 0, 60, 0, 4, 5, 6, 7, 8])

/-- A response with two answers and no question: an A record (root name, 1.2.3.4),
then a record whose name starts with a label of 63 bytes, more than the budget
`MAXCNAME` of `exampleConfig` allows. -/
def exampleBrokenResponse : Mem :=
  memOf ([0x11, 0x23, 0x81, 0x80, 0, 0, 0, 2, 0, 0, 0, 0]
    ++ [0, 0, 1, 0, 1, 0, 0, 0, 60, 0, 4, 1, 2, 3, 4]
    ++ [63, 0, 1, 0, 1, 0, 0, 0, 60, 0, 4, 5, 6, 7, 8])

/-- The answer record at `c` is a type-A record whose name decodes. -/
def typeAAt (cfg : Config) (msg : Mem) (c : Nat) : Prop :=
  (parse_name msg c (MAXCNAME cfg)).ret ≠ -1
  ∧ get16 msg (c + (parse_name msg c (MAXCNAME cfg)).ret.toNat) = TYPE_A

instance (cfg : Config) (msg : Mem) (c : Nat) : Decidable (typeAAt cfg msg c) := by
  unfold typeAAt; infer_instance

/-- The invariant of the state machine: the state is Idle, SocketReady,
RequestSent or Failed, and the retry count does not exceed `MAX_DNS_RETRY`. -/
def stateInv (cfg : Config) (c : Ctx) : Prop :=
  (c.dnsState = DNS_STATE_IDLE ∨ c.dnsState = DNS_STATE_SOCK_CREATE
    ∨ c.dnsState = DNS_STATE_SEND_REQUEST ∨ c.dnsState = DNS_STATE_FAILED)
  ∧ c.retry_count ≤ cfg.MAX_DNS_RETRY

instance (cfg : Config) (c : Ctx) : Decidable (stateInv cfg c) := by
  unfold stateInv; infer_instance

/-- A response with one answer and no question: a record whose name starts with a
label of 63 bytes, more than the budget `MAXCNAME` of `exampleConfig` allows. -/
def exampleBadNameResponse : Mem :=
  memOf ([0x11, 0x23, 0x81, 0x80, 0, 0, 0, 1, 0, 0, 0, 0]
    ++ [63, 0, 1, 0, 1, 0, 0, 0, 60, 0, 4, 5, 6, 7, 8])

/-- The transport delivers the 49 bytes of `exampleResponse`. -/
def exampleReply : Rx := { rsr := 49, data := readBytes exampleResponse 0 49 }

/-- A name of two labels of 11 bytes behind a header of 12 bytes: its labels and
their dots take 24 bytes, the whole of `MAXCNAME` for `exampleConfig`. -/
def exampleFullName : Mem :=
  memOf ([0, 0, 0, 0, 0, 1, 0, 0, 0, 0, 0, 0]
    ++ encodeLabels [List.replicate 11 97, List.replicate 11 98] ++ [0, 0, 1, 0, 1])

/-- A message with the name "a" at offset 0, a pointer to offset 0 at offset 3, and
a pointer to offset 3 at offset 5. -/
def examplePointerChain : Mem := memOf [1, 97, 0, 0xC0, 0, 0xC0, 3]

/-- The loop of `parse_name` with its control flow only, and two counters: the
number of times the loop body has been entered and `nseg`, the number of labels
copied, both as they stand when the loop is left (by `break` or by `return -1`).
The first argument is the step budget. -/
def parse_name_count (msg : Mem) : Nat → Nat → Int → Bool → Nat → Nat → Option (Nat × Nat)
  | 0, _, _, _, _, _ => none
  | fuel + 1, cp, len, indirect, iters, nseg =>
    let s := read_seg msg cp 0 indirect
    if s.slen = 0 then some (iters + 1, nseg)
    else
      let len1 := toInt16 (len - ((s.slen : Int) + 1))
      if len1 < 0 then some (iters + 1, nseg)
      else parse_name_count msg fuel (s.cp + s.slen) len1 s.indirect (iters + 1) (nseg + 1)

/-- A message whose name field is a cycle: the label "a" at offset 0 followed by a
pointer back to offset 0. -/
def examplePointerCycle : Mem := memOf [1, 97, 0xC0, 0]

/-- Example values for the constants of `dns.h` with room for long names:
`MAX_DOMAIN_NAME` is 128, so that `MAXCNAME` is 192. -/
def wideNameConfig : Config :=
  { MAX_DOMAIN_NAME := 128, MAX_DNS_BUF_SIZE := 256, MAX_DNS_RETRY := 2, DNS_WAIT_TIME := 3,
    DNS_MSG_ID := 0x1122 }

/-- A question section laid out as the wire format says: `k` question records from
the offset `c` on, ending at the offset `e`. The name of a record is a field of `n`
bytes (`NameField`) that decodes within `MAXCNAME`; type and class take the next 4
bytes. -/
inductive QuestionSection (cfg : Config) (msg : Mem) : Nat → Nat → Nat → Prop where
  | done (c : Nat) : QuestionSection cfg msg c 0 c
  | question (c n k e : Nat) :
      NameField msg c n → (parse_name msg c (MAXCNAME cfg)).ret ≠ -1 →
      QuestionSection cfg msg (c + n + 4) k e →
      QuestionSection cfg msg c (k + 1) e

/-- An answer section laid out as the wire format says, from the offset `c` on: one
entry per record, `some [a, b, c, d]` for a type-A record with 4 bytes of rdata
a.b.c.d, `none` for a record whose rdata is a single name (CNAME, MB, MG, MR, NS,
PTR). The owner name of a record is a field of `n` bytes (`NameField`) that decodes
within `MAXCNAME`; type, class, ttl and rdata length take the next 10 bytes; the
next record starts where the rdata length says the rdata ends. -/
inductive AnswerSection (cfg : Config) (msg : Mem) : Nat → List (Option (List Nat)) → Prop where
  | done (c : Nat) : AnswerSection cfg msg c []
  | typeA (c n a0 a1 a2 a3 : Nat) (rest : List (Option (List Nat))) :
      NameField msg c n → (parse_name msg c (MAXCNAME cfg)).ret ≠ -1 →
      get16 msg (c + n) = TYPE_A → get16 msg (c + n + 8) = 4 →
      rd msg (c + n + 10) = a0 → rd msg (c + n + 11) = a1 →
      rd msg (c + n + 12) = a2 → rd msg (c + n + 13) = a3 →
      AnswerSection cfg msg (c + n + 10 + 4) rest →
      AnswerSection cfg msg c (some [a0, a1, a2, a3] :: rest)
  | nameType (c n m : Nat) (rest : List (Option (List Nat))) :
      NameField msg c n → (parse_name msg c (MAXCNAME cfg)).ret ≠ -1 →
      (get16 msg (c + n) = TYPE_CNAME ∨ get16 msg (c + n) = TYPE_MB
        ∨ get16 msg (c + n) = TYPE_MG ∨ get16 msg (c + n) = TYPE_MR
        ∨ get16 msg (c + n) = TYPE_NS ∨ get16 msg (c + n) = TYPE_PTR) →
      get16 msg (c + n + 8) = m →
      NameField msg (c + n + 10) m → (parse_name msg (c + n + 10) (MAXCNAME cfg)).ret ≠ -1 →
      AnswerSection cfg msg (c + n + 10 + m) rest →
      AnswerSection cfg msg c (none :: rest)

/-- The address of the last type-A record of an answer section, or `ip` when the
section has no type-A record. -/
def lastAddress : List (Option (List Nat)) → List Nat → List Nat
  | [], ip => ip
  | some a :: rest, _ => lastAddress rest a
  | none :: rest, ip => lastAddress rest ip

/-- A response with one question and three answers: the question for "a" at offset
12, an A record (name: a pointer to offset 12, 1.2.3.4) at offset 19, an A record
(same name, 5.6.7.8) at offset 35, and at offset 51 a CNAME record (same name, rdata
length 2, rdata: a pointer to offset 12), ending at offset 65. -/
def exampleTwoAThenCnameResponse : Mem :=
  memOf ([0x11, 0x23, 0x81, 0x80, 0, 1, 0, 3, 0, 0, 0, 0]
    ++ [1, 97, 0, 0, 1, 0, 1]
    ++ [0xC0, 12, 0, 1, 0, 1, 0, 0, 0, 60, 0, 4, 1, 2, 3, 4]
    ++ [0xC0, 12, 0, 1, 0, 1, 0, 0, 0, 60, 0, 4, 5, 6, 7, 8]
    ++ [0xC0, 12, 0, 5, 0, 1, 0, 0, 0, 60, 0, 2, 0xC0, 12])

/-- A response with two answers and no question: at offset 12 a TXT record (root
name, rdata length 1, rdata: one empty character string), and at offset 24 a record
whose name starts with a label of 63 bytes, more than the budget `MAXCNAME` of
`exampleConfig` allows. -/
def exampleTxtBadNameResponse : Mem :=
  memOf ([0x11, 0x23, 0x81, 0x80, 0, 0, 0, 2, 0, 0, 0, 0]
    ++ [0, 0, 16, 0, 1, 0, 0, 0, 60, 0, 1, 0]
    ++ [63, 0, 1, 0, 1, 0, 0, 0, 60, 0, 4, 5, 6, 7, 8])

/-- A response with two answers and no question: at offset 12 a TXT record (root
name, rdata length 64, rdata: one character string of 63 bytes), and at offset 87
an A record (root name, 1.2.3.4). -/
def exampleLongTxtResponse : Mem :=
  memOf ([0x11, 0x23, 0x81, 0x80, 0, 0, 0, 2, 0, 0, 0, 0]
    ++ [0, 0, 16, 0, 1, 0, 0, 0, 60, 0, 64] ++ [63] ++ List.replicate 63 120
    ++ [0, 0, 1, 0, 1, 0, 0, 0, 60, 0, 4, 1, 2, 3, 4])

/-! ## Lemmas on `dns_makequery` -/

theorem get_of_eq_some {α : Type} {o : Option α} {x : α} (h : o.isSome = true)
    (hx : o = some x) : o.get h = x := by
  subst hx; rfl

theorem strchr_none_of_forall (l : List Nat) (c : Nat) (h : ∀ b ∈ l, b ≠ c) :
    strchr l c = none := by
  induction l with
  | nil => rfl
  | cons x xs ih =>
    have hx : x ≠ c := h x (by simp)
    have := ih (fun b hb => h b (by simp [hb]))
    simp [strchr, hx, this]

theorem strchr_append (l r : List Nat) (c : Nat) (h : ∀ b ∈ l, b ≠ c) :
    strchr (l ++ c :: r) c = some l.length := by
  induction l with
  | nil => simp [strchr]
  | cons x xs ih =>
    have hx : x ≠ c := h x (by simp)
    have := ih (fun b hb => h b (by simp [hb]))
    simp [strchr, hx, this]

theorem map_mod_of_lt (l : List Nat) (h : ∀ b ∈ l, b < 256) : l.map (· % 256) = l := by
  induction l with
  | nil => rfl
  | cons x xs ih =>
    have hx : x < 256 := h x (by simp)
    simp [Nat.mod_eq_of_lt hx, ih (fun b hb => h b (by simp [hb]))]

theorem strncpy_append (l r : List Nat) (h : ∀ b ∈ l, b < 256) :
    strncpy (l ++ r) l.length = l := by
  unfold strncpy
  have h0 : l.length - (l ++ r).length = 0 := by simp
  rw [h0, List.take_left]
  simp [map_mod_of_lt l h]

theorem encodeLabels_length (n : Nat) (labels : List (List Nat)) (hne : labels ≠ [])
    (hv : ∀ l ∈ labels, ValidLabel n l) :
    (encodeLabels labels).length = (dotted labels).length + 1 := by
  induction labels with
  | nil => exact absurd rfl hne
  | cons l ls ih =>
    cases ls with
    | nil => simp [encodeLabels, dotted]
    | cons l2 ls2 =>
      have := ih (by simp) (fun x hx => hv x (by simp [hx]))
      simp only [encodeLabels] at this ⊢
      simp only [dotted, List.length_append, List.length_cons] at this ⊢
      omega

/-- On a name made of valid labels the name loop of `dns_makequery` stores the
labels, each after its length byte, and one zero byte. -/
theorem makequery_loop_labels (n : Nat) (hn : n ≤ 255) :
    ∀ (labels : List (List Nat)) (fuel : Nat) (out : List Nat),
      labels ≠ [] → (∀ l ∈ labels, ValidLabel n l) →
      (dotted labels).length < fuel → (dotted labels).length < 65536 →
      makequery_loop fuel (dotted labels) (dotted labels).length out
        = some (out ++ encodeLabels labels ++ [0]) := by
  intro labels
  induction labels with
  | nil => intro fuel out hne; exact absurd rfl hne
  | cons l ls ih =>
    intro fuel out _ hv hfuel h16
    obtain ⟨hl0, hl63, hlb⟩ := hv l (by simp)
    have hlen0 : l.length ≠ 0 := by
      intro h; exact hl0 (List.length_eq_zero.mp h)
    cases fuel with
    | zero => omega
    | succ f =>
      cases ls with
      | nil =>
        simp only [dotted] at hfuel h16 ⊢
        unfold makequery_loop
        have hs : strchr l 46 = none := strchr_none_of_forall l 46 (fun b hb => (hlb b hb).1)
        have hcp : strncpy l l.length = l := by
          have := strncpy_append l [] (fun b hb => (hlb b hb).2.2)
          simpa using this
        simp only [hs, if_neg hlen0, hcp]
        have : l.length % 256 = l.length := Nat.mod_eq_of_lt (by omega)
        simp [this, encodeLabels]
      | cons l2 ls2 =>
        simp only [dotted, List.length_append, List.length_cons] at hfuel h16 ⊢
        unfold makequery_loop
        have hs : strchr (l ++ 46 :: dotted (l2 :: ls2)) 46 = some l.length :=
          strchr_append l _ 46 (fun b hb => (hlb b hb).1)
        have hm : l.length % 65536 = l.length := Nat.mod_eq_of_lt (by omega)
        have hcp : strncpy (l ++ 46 :: dotted (l2 :: ls2)) l.length = l :=
          strncpy_append l _ (fun b hb => (hlb b hb).2.2)
        have hdrop : List.drop (l.length + 1) (l ++ 46 :: dotted (l2 :: ls2))
            = dotted (l2 :: ls2) := by
          rw [List.drop_append]
          simp
        have hd : (l.length + ((dotted (l2 :: ls2)).length + 1) + 65536 - (l.length + 1)) % 65536
            = (dotted (l2 :: ls2)).length := by
          have : l.length + ((dotted (l2 :: ls2)).length + 1) + 65536 - (l.length + 1)
              = (dotted (l2 :: ls2)).length + 65536 := by omega
          rw [this]
          omega
        simp only [hs, hm, if_neg hlen0, hcp, hdrop, hd]
        rw [ih f _ (by simp) (fun x hx => hv x (by simp [hx])) (by omega) (by omega)]
        have : l.length % 256 = l.length := Nat.mod_eq_of_lt (by omega)
        simp [this, encodeLabels]

/-- The bytes stored and the values left by `dns_makequery` for `op = 0` on a name
made of valid labels. -/
theorem dns_makequery_labels (n : Nat) (hn : n ≤ 255) (msgid len : Nat)
    (labels : List (List Nat)) (hne : labels ≠ []) (hv : ∀ l ∈ labels, ValidLabel n l)
    (hfit : 12 + ((dotted labels).length + 2) + 4 ≤ 32767) :
    dns_makequery msgid 0 (dotted labels) len =
      { ret := 12 + (((dotted labels).length : Int) + 2) + 4
        bytes := put16 ((msgid + 1) % 65536) ++ [0x01, 0x00] ++ [0, 1] ++ [0, 0] ++ [0, 0]
          ++ [0, 0] ++ encodeLabels labels ++ [0] ++ [0, 1] ++ [0, 1]
        msgid := (msgid + 1) % 65536 } := by
  have hloop := makequery_loop_labels n hn labels ((dotted labels).length + 1)
    (put16 ((msgid + 1) % 65536) ++ put16 (((0 <<< 11) ||| 0x0100) % 65536) ++ put16 1
      ++ put16 0 ++ put16 0 ++ put16 0) hne hv (Nat.lt_succ_self _) (by omega)
  have hmod : (dotted labels).length % 65536 = (dotted labels).length :=
    Nat.mod_eq_of_lt (by omega)
  unfold dns_makequery
  simp only [hmod]
  rw [get_of_eq_some _ hloop]
  have hel := encodeLabels_length n labels hne hv
  have hlen : (put16 ((msgid + 1) % 65536) ++ put16 (((0 <<< 11) ||| 0x0100) % 65536)
      ++ put16 1 ++ put16 0 ++ put16 0 ++ put16 0 ++ encodeLabels labels ++ [0] ++ put16 1
      ++ put16 1).length = 12 + ((dotted labels).length + 2) + 4 := by
    simp only [List.length_append, put16, List.length_cons, List.length_nil, hel]
    omega
  rw [hlen]
  have hp : put16 (((0 <<< 11) ||| 0x0100) % 65536) = [0x01, 0x00] := by decide
  have h1 : put16 1 = [0, 1] := by decide
  have h0 : put16 0 = [0, 0] := by decide
  rw [hp, h1, h0]
  have hm2 : (12 + ((dotted labels).length + 2) + 4) % 4294967296
      = 12 + ((dotted labels).length + 2) + 4 := Nat.mod_eq_of_lt (by omega)
  rw [hm2, toInt16_of_range _ (by omega) (by omega)]
  congr 1

/-! ## Lemmas on `parse_name` -/

theorem holdsAt_of_forall (msg : Mem) :
    ∀ (bs : List Nat) (off : Nat), (∀ i, i < bs.length → msg (off + i) = bs.getD i 0) →
      HoldsAt msg off bs := by
  intro bs
  induction bs with
  | nil => intro off _; trivial
  | cons b bs ih =>
    intro off h
    refine ⟨?_, ih (off + 1) ?_⟩
    · have := h 0 (by simp)
      simpa using this
    · intro i hi
      have := h (i + 1) (by simp; omega)
      rw [show off + 1 + i = off + (i + 1) by omega, this]
      simp

theorem holdsAt_append (msg : Mem) :
    ∀ (a b : List Nat) (off : Nat),
      HoldsAt msg off (a ++ b) ↔ HoldsAt msg off a ∧ HoldsAt msg (off + a.length) b := by
  intro a
  induction a with
  | nil => intro b off; simp [HoldsAt]
  | cons x xs ih =>
    intro b off
    have h := ih b (off + 1)
    rw [show off + 1 + xs.length = off + (xs.length + 1) by omega] at h
    show msg off = x ∧ HoldsAt msg (off + 1) (xs ++ b) ↔ _
    rw [h]
    simp only [HoldsAt, List.length_cons]
    tauto

theorem holdsAt_writeBytes (m : Mem) (off : Nat) (bs : List Nat) :
    HoldsAt (writeBytes m off bs) off bs := by
  apply holdsAt_of_forall
  intro i hi
  unfold writeBytes
  have h : off ≤ off + i ∧ off + i < off + bs.length := by omega
  rw [if_pos h]
  congr 1
  omega

theorem holdsAt_memOf (bs : List Nat) : HoldsAt (memOf bs) 0 bs := by
  apply holdsAt_of_forall
  intro i _
  simp [memOf]

theorem readBytes_of_holdsAt (msg : Mem) :
    ∀ (l : List Nat) (off : Nat), HoldsAt msg off l → (∀ b ∈ l, b < 256) →
      readBytes msg off l.length = l := by
  intro l
  induction l with
  | nil => intro off _ _; rfl
  | cons x xs ih =>
    intro off h hb
    have hx : x < 256 := hb x (by simp)
    simp only [List.length_cons, readBytes, rd, h.1, Nat.mod_eq_of_lt hx]
    rw [ih (off + 1) h.2 (fun b hb2 => hb b (by simp [hb2]))]

theorem dottedDot_eq (labels : List (List Nat)) (hne : labels ≠ []) :
    dottedDot labels = dotted labels ++ [46] := by
  induction labels with
  | nil => exact absurd rfl hne
  | cons l ls ih =>
    cases ls with
    | nil => simp [dottedDot, dotted]
    | cons l2 ls2 =>
      have := ih (by simp)
      simp only [dottedDot, dotted] at this ⊢
      rw [this]
      simp

theorem not_pointer_of_lt : ∀ n : Nat, n < 64 → n &&& 0xc0 ≠ 0xc0 := by decide

/-- Head of an iteration on a byte that is not a compression pointer. -/
theorem read_seg_label (msg : Mem) (cp : Nat) (clen : Int) (indirect : Bool)
    (h : rd msg cp &&& 0xc0 ≠ 0xc0) :
    read_seg msg cp clen indirect =
      { slen := rd msg cp, cp := cp + 1, clen := if indirect then clen else clen + 1,
        indirect := indirect } := by
  unfold read_seg
  simp only [if_neg h]

/-- Decoding an uncompressed label sequence: when `msg` holds the wire form of
`labels` and a zero byte from `cp` on and the budget `len` covers every label and
its dot, the loop leaves through the zero byte having stored every label followed by
a dot and counted every byte of the field. -/
theorem parse_name_loop_labels (msg : Mem) :
    ∀ (labels : List (List Nat)) (fuel cp : Nat) (len clen : Int) (nseg : Nat)
      (buf : List Nat),
      (∀ l ∈ labels, ValidLabel 63 l) →
      HoldsAt msg cp (encodeLabels labels ++ [0]) →
      ((encodeLabels labels).length : Int) ≤ len → len ≤ 32767 →
      labels.length < fuel →
      parse_name_loop msg fuel cp len clen false nseg buf
        = some (parse_name_finish (clen + (encodeLabels labels).length + 1)
            (nseg + labels.length) (buf ++ dottedDot labels)) := by
  intro labels
  induction labels with
  | nil =>
    intro fuel cp len clen nseg buf _ hm _ _ hf
    cases fuel with
    | zero => simp at hf
    | succ f =>
      have h0 : rd msg cp = 0 := by
        have := hm.1
        simp [rd, this]
      have hseg := read_seg_label msg cp clen false (by rw [h0]; decide)
      unfold parse_name_loop
      simp only [hseg, h0]
      simp [encodeLabels, dottedDot]
  | cons l ls ih =>
    intro fuel cp len clen nseg buf hv hm hlen h15 hf
    obtain ⟨hl0, hl63, hlb⟩ := hv l (by simp)
    have hlen0 : l.length ≠ 0 := by
      intro h; exact hl0 (List.length_eq_zero.mp h)
    cases fuel with
    | zero => simp at hf
    | succ f =>
      simp only [encodeLabels, List.cons_append, List.append_assoc] at hm
      obtain ⟨hhead, hrest⟩ := hm
      rw [holdsAt_append] at hrest
      obtain ⟨hbytes, htail⟩ := hrest
      have hrd : rd msg cp = l.length := by
        simp only [rd, hhead]
        exact Nat.mod_eq_of_lt (by omega)
      have hseg := read_seg_label msg cp clen false
        (by rw [hrd]; exact not_pointer_of_lt _ (by omega))
      simp only [encodeLabels, List.length_append, List.length_cons] at hlen
      unfold parse_name_loop
      simp only [hseg, hrd, if_neg hlen0]
      have hconv : toInt16 (len - ((l.length : Int) + 1)) = len - ((l.length : Int) + 1) :=
        toInt16_of_range _ (by omega) (by omega)
      have hnn : ¬ (len - ((l.length : Int) + 1) < 0) := by push_cast at hlen; omega
      rw [hconv, if_neg hnn]
      rw [readBytes_of_holdsAt msg l (cp + 1) hbytes (fun b hb => (hlb b hb).2.2)]
      rw [ih f (cp + 1 + l.length) _ _ (nseg + 1) _ (fun x hx => hv x (by simp [hx]))
        htail (by push_cast at hlen ⊢; omega) (by omega) (by simp at hf; omega)]
      simp only [encodeLabels, dottedDot, List.length_append, List.length_cons]
      congr 2
      · simp only [Bool.false_eq_true, if_false]
        push_cast
        ring
      · omega
      · simp

/-- Decoding with `parse_name` the wire form of a list of valid labels. -/
theorem parse_name_labels (msg : Mem) (cp : Nat) (len : Int) (labels : List (List Nat))
    (hv : ∀ l ∈ labels, ValidLabel 63 l)
    (hm : HoldsAt msg cp (encodeLabels labels ++ [0]))
    (hlen : ((encodeLabels labels).length : Int) ≤ len) (h15 : len ≤ 32767) :
    parse_name msg cp len
      = parse_name_finish ((encodeLabels labels).length + 1) labels.length
          (dottedDot labels) := by
  have hll : ∀ (ls : List (List Nat)), ls.length ≤ (encodeLabels ls).length := by
    intro ls
    induction ls with
    | nil => simp
    | cons x xs ih => simp [encodeLabels]; omega
  have hl := hll labels
  have hconv : toInt16 len = len := toInt16_of_range _ (by omega) h15
  unfold parse_name
  apply get_of_eq_some
  rw [hconv, parse_name_loop_labels msg labels parseFuel cp len 0 0 [] hv hm hlen h15
    (by unfold parseFuel; omega)]
  simp

theorem encodeLabels_length_le (labels : List (List Nat))
    (hv : ∀ l ∈ labels, ValidLabel 63 l) :
    (encodeLabels labels).length ≤ 64 * labels.length := by
  induction labels with
  | nil => simp [encodeLabels]
  | cons l ls ih =>
    have h1 := (hv l (by simp)).2.1
    have h2 := ih (fun x hx => hv x (by simp [hx]))
    simp only [encodeLabels, List.length_append, List.length_cons]
    omega

/-- The message that `dns_makequery` stores for a name made of valid labels holds
the wire form of the labels and a zero byte from offset 12 on. -/
theorem makequery_holdsAt (m : Mem) (msgid cap : Nat) (labels : List (List Nat))
    (hne : labels ≠ []) (hv : ∀ l ∈ labels, ValidLabel 63 l)
    (hfit : 12 + ((dotted labels).length + 2) + 4 ≤ 32767) :
    HoldsAt (writeBytes m 0 (dns_makequery msgid 0 (dotted labels) cap).bytes) 12
      (encodeLabels labels ++ [0]) := by
  have hw := holdsAt_writeBytes m 0 (dns_makequery msgid 0 (dotted labels) cap).bytes
  rw [dns_makequery_labels 63 (by omega) msgid cap labels hne hv hfit] at hw ⊢
  simp only at hw ⊢
  have hshape : put16 ((msgid + 1) % 65536) ++ [0x01, 0x00] ++ [0, 1] ++ [0, 0] ++ [0, 0]
      ++ [0, 0] ++ encodeLabels labels ++ [0] ++ [0, 1] ++ [0, 1]
      = (put16 ((msgid + 1) % 65536) ++ [0x01, 0x00] ++ [0, 1] ++ [0, 0] ++ [0, 0] ++ [0, 0])
        ++ ((encodeLabels labels ++ [0]) ++ ([0, 1] ++ [0, 1])) := by
    simp only [List.append_assoc]
  rw [hshape] at hw ⊢
  have h1 := ((holdsAt_append _ _ _ _).mp hw).2
  have h2 := ((holdsAt_append _ _ _ _).mp h1).1
  have h12 : 0 + (put16 ((msgid + 1) % 65536) ++ [0x01, 0x00] ++ [0, 1] ++ [0, 0] ++ [0, 0]
      ++ [0, 0]).length = 12 := by
    simp [put16]
  rw [h12] at h2
  exact h2

theorem read_seg_slen_indep (msg : Mem) (cp : Nat) (clen : Int) (indirect : Bool) :
    (read_seg msg cp clen indirect).slen = (read_seg msg cp 0 false).slen := by
  unfold read_seg
  simp only
  split <;> rfl

theorem read_seg_cp_indep (msg : Mem) (cp : Nat) (clen : Int) (indirect : Bool) :
    (read_seg msg cp clen indirect).cp = (read_seg msg cp 0 false).cp := by
  unfold read_seg
  simp only
  split <;> rfl

theorem read_seg_clen_nonneg (msg : Mem) (cp : Nat) (clen : Int) (indirect : Bool)
    (h : 0 ≤ clen) : 0 ≤ (read_seg msg cp clen indirect).clen := by
  unfold read_seg
  simp only
  cases indirect <;> split <;> simp <;> omega

theorem read_seg_indirect (msg : Mem) (cp : Nat) (clen : Int) :
    (read_seg msg cp clen true).clen = clen ∧ (read_seg msg cp clen true).indirect = true := by
  unfold read_seg
  simp only
  split <;> simp

/-- The bytes stored by the loop of `parse_name`, and whether it fails, do not
depend on `clen` and `indirect`. -/
theorem parse_name_loop_out_indep (msg : Mem) :
    ∀ (fuel cp : Nat) (len clen1 clen2 : Int) (ind1 ind2 : Bool) (nseg : Nat)
      (buf : List Nat) (r1 : ParseName),
      0 ≤ clen1 → 0 ≤ clen2 →
      parse_name_loop msg fuel cp len clen1 ind1 nseg buf = some r1 →
      ∃ r2, parse_name_loop msg fuel cp len clen2 ind2 nseg buf = some r2
        ∧ r2.out = r1.out ∧ (r2.ret = -1 ↔ r1.ret = -1) := by
  intro fuel
  induction fuel with
  | zero => intro cp len clen1 clen2 ind1 ind2 nseg buf r1 _ _ h; simp [parse_name_loop] at h
  | succ f ih =>
    intro cp len clen1 clen2 ind1 ind2 nseg buf r1 h1 h2 h
    have hn1 := read_seg_clen_nonneg msg cp clen1 ind1 h1
    have hn2 := read_seg_clen_nonneg msg cp clen2 ind2 h2
    unfold parse_name_loop at h ⊢
    simp only at h ⊢
    rw [read_seg_slen_indep msg cp clen1 ind1, read_seg_cp_indep msg cp clen1 ind1] at h
    rw [read_seg_slen_indep msg cp clen2 ind2, read_seg_cp_indep msg cp clen2 ind2]
    by_cases hz : (read_seg msg cp 0 false).slen = 0
    · rw [if_pos hz] at h ⊢
      refine ⟨_, rfl, ?_, ?_⟩
      · cases h; rfl
      · cases h
        simp only [parse_name_finish]
        constructor <;> intro hh <;> omega
    · rw [if_neg hz] at h ⊢
      by_cases hneg : toInt16 (len - (((read_seg msg cp 0 false).slen : Int) + 1)) < 0
      · rw [if_pos hneg] at h ⊢
        refine ⟨_, rfl, ?_, ?_⟩
        · cases h; rfl
        · cases h; simp
      · rw [if_neg hneg] at h ⊢
        refine ih _ _ _ _ _ _ _ _ r1 ?_ ?_ h
        · split <;> omega
        · split <;> omega

/-- Once an indirection has been followed the loop of `parse_name` returns the
`clen` it was entered with, or -1. -/
theorem parse_name_loop_indirect_ret (msg : Mem) :
    ∀ (fuel cp : Nat) (len clen : Int) (nseg : Nat) (buf : List Nat) (r : ParseName),
      parse_name_loop msg fuel cp len clen true nseg buf = some r →
      r.ret = clen ∨ r.ret = -1 := by
  intro fuel
  induction fuel with
  | zero => intro cp len clen nseg buf r h; simp [parse_name_loop] at h
  | succ f ih =>
    intro cp len clen nseg buf r h
    obtain ⟨hc, hi⟩ := read_seg_indirect msg cp clen
    unfold parse_name_loop at h
    simp only [hc, hi] at h
    by_cases hz : (read_seg msg cp clen true).slen = 0
    · rw [if_pos hz] at h
      cases h
      left; rfl
    · rw [if_neg hz] at h
      by_cases hneg : toInt16 (len - (((read_seg msg cp clen true).slen : Int) + 1)) < 0
      · rw [if_pos hneg] at h
        cases h
        right; rfl
      · rw [if_neg hneg] at h
        exact ih _ _ _ _ _ r h

theorem pointer_bits : ∀ h : Nat, h < 64 →
    (0xC0 ||| h) = 192 + h ∧ (192 + h) &&& 0xc0 = 0xc0 ∧ (192 + h) &&& 0x3f = h := by
  decide

/-- Head of an iteration on a two-byte compression pointer to `p`. -/
theorem read_seg_pointer (msg : Mem) (q p : Nat) (clen : Int) (indirect : Bool)
    (hp : p < 16384) (hq0 : rd msg q = 0xC0 ||| (p >>> 8)) (hq1 : rd msg (q + 1) = p &&& 0xFF) :
    read_seg msg q clen indirect =
      { slen := rd msg p, cp := p + 1,
        clen := if indirect then clen else clen + 1 + 1, indirect := true } := by
  have hdiv : p >>> 8 = p / 256 := by rw [Nat.shiftRight_eq_div_pow]
  have hmod : p &&& 0xFF = p % 256 := Nat.and_pow_two_sub_one_eq_mod p 8
  have hlt : p / 256 < 64 := by omega
  obtain ⟨hb1, hb2, hb3⟩ := pointer_bits (p / 256) hlt
  rw [hdiv, hb1] at hq0
  rw [hmod] at hq1
  unfold read_seg
  simp only [hq0, hb2, if_true, hb3, hq1]
  have htgt : (p / 256) <<< 8 + p % 256 = p := by
    rw [Nat.shiftLeft_eq]
    omega
  rw [htgt]
  cases indirect <;> simp

/-- A name field has one length only. -/
theorem NameField_unique (msg : Mem) (cp n m : Nat) (hn : NameField msg cp n)
    (hm : NameField msg cp m) : n = m := by
  induction hn generalizing m with
  | zero cp h0 =>
    cases hm with
    | zero _ _ => rfl
    | pointer _ hp => rw [h0] at hp; exact absurd hp (by decide)
    | label _ k hnz _ _ => exact absurd h0 hnz
  | pointer cp hp =>
    cases hm with
    | zero _ h0 => rw [h0] at hp; exact absurd hp (by decide)
    | pointer _ _ => rfl
    | label _ k _ hnp _ => exact absurd hp hnp
  | label cp k hnz hnp _ ih =>
    cases hm with
    | zero _ h0 => exact absurd h0 hnz
    | pointer _ hp => exact absurd hp hnp
    | label _ k2 _ _ h2 => rw [ih k2 h2]

theorem read_seg_pointer_fields (msg : Mem) (cp : Nat) (clen : Int)
    (h : rd msg cp &&& 0xc0 = 0xc0) :
    (read_seg msg cp clen false).clen = clen + 2
    ∧ (read_seg msg cp clen false).indirect = true := by
  unfold read_seg
  simp only [if_pos h]
  constructor
  · simp; omega
  · trivial

/-- The value returned by the loop of `parse_name`, entered before any indirection,
is the `clen` it was entered with plus the length of the name field at `cp`. -/
theorem parse_name_loop_ret (msg : Mem) :
    ∀ (fuel cp : Nat) (len clen : Int) (nseg : Nat) (buf : List Nat) (r : ParseName),
      parse_name_loop msg fuel cp len clen false nseg buf = some r → r.ret ≠ -1 →
      ∃ n, NameField msg cp n ∧ r.ret = clen + n := by
  intro fuel
  induction fuel with
  | zero => intro cp len clen nseg buf r h; simp [parse_name_loop] at h
  | succ f ih =>
    intro cp len clen nseg buf r h hne
    unfold parse_name_loop at h
    simp only at h
    by_cases hp : rd msg cp &&& 0xc0 = 0xc0
    · obtain ⟨hc, hi⟩ := read_seg_pointer_fields msg cp clen hp
      refine ⟨2, NameField.pointer cp hp, ?_⟩
      rw [hc, hi] at h
      by_cases hz : (read_seg msg cp clen false).slen = 0
      · rw [if_pos hz] at h
        cases h
        rfl
      · rw [if_neg hz] at h
        by_cases hneg : toInt16 (len - (((read_seg msg cp clen false).slen : Int) + 1)) < 0
        · rw [if_pos hneg] at h
          cases h
          exact absurd rfl hne
        · rw [if_neg hneg] at h
          simp only [if_true] at h
          rcases parse_name_loop_indirect_ret msg _ _ _ _ _ _ r h with h2 | h2
          · exact h2
          · exact absurd h2 hne
    · rw [read_seg_label msg cp clen false hp] at h
      simp only [Bool.false_eq_true, if_false] at h
      by_cases hz : rd msg cp = 0
      · rw [if_pos hz] at h
        cases h
        exact ⟨1, NameField.zero cp hz, rfl⟩
      · rw [if_neg hz] at h
        by_cases hneg : toInt16 (len - ((rd msg cp : Int) + 1)) < 0
        · rw [if_pos hneg] at h
          cases h
          exact absurd rfl hne
        · rw [if_neg hneg] at h
          obtain ⟨n, hn, hr⟩ := ih _ _ _ _ _ r h hne
          refine ⟨rd msg cp + 1 + n, NameField.label cp n hz hp hn, ?_⟩
          rw [hr]
          push_cast
          ring

/-! ## Lemmas on `parseDNSMSG` -/

theorem get16_eq (m : Mem) (s : Nat) : get16 m s = rd m s * 256 + rd m (s + 1) := by
  have h1 := rd_lt m s
  have h2 := rd_lt m (s + 1)
  unfold get16
  rw [Nat.shiftLeft_eq]
  omega

theorem bit_test (x k : Nat) : (if x &&& 2 ^ k ≠ 0 then 1 else 0) = x / 2 ^ k % 2 := by
  rw [Nat.and_two_pow]
  have hpos : 0 < 2 ^ k := Nat.two_pow_pos k
  have hdm := @Nat.testBit_to_div_mod k x
  cases hb : x.testBit k
  · rw [hb] at hdm
    have : ¬ (x / 2 ^ k % 2 = 1) := by
      intro h; simp [h] at hdm
    simp
    omega
  · rw [hb] at hdm
    have : x / 2 ^ k % 2 = 1 := by
      by_contra h; simp [h] at hdm
    simp [this]

/-- The header fields as the wire layout defines them. -/
theorem parse_header_eq (msg : Mem) :
    parse_header msg =
      { id := rd msg 0 * 256 + rd msg 1
        qr := flagsWord msg / 2 ^ 15 % 2
        opcode := flagsWord msg / 2 ^ 11 % 16
        aa := flagsWord msg / 2 ^ 10 % 2
        tc := flagsWord msg / 2 ^ 9 % 2
        rd := flagsWord msg / 2 ^ 8 % 2
        ra := flagsWord msg / 2 ^ 7 % 2
        rcode := flagsWord msg % 16
        qdcount := rd msg 4 * 256 + rd msg 5
        ancount := rd msg 6 * 256 + rd msg 7
        nscount := rd msg 8 * 256 + rd msg 9
        arcount := rd msg 10 * 256 + rd msg 11 } := by
  unfold parse_header
  simp only [get16_eq]
  have hf : rd msg 2 * 256 + rd msg (2 + 1) = flagsWord msg := rfl
  rw [hf]
  have h15 := bit_test (flagsWord msg) 15
  have h10 := bit_test (flagsWord msg) 10
  have h9 := bit_test (flagsWord msg) 9
  have h8 := bit_test (flagsWord msg) 8
  have h7 := bit_test (flagsWord msg) 7
  have hop : ((flagsWord msg >>> 11) &&& 0xf) % 256 = flagsWord msg / 2 ^ 11 % 16 := by
    rw [Nat.shiftRight_eq_div_pow]
    have := Nat.and_pow_two_sub_one_eq_mod (flagsWord msg / 2 ^ 11) 4
    norm_num at this ⊢
    rw [this]
    omega
  have hrc : (flagsWord msg &&& 0xf) % 256 = flagsWord msg % 16 := by
    have := Nat.and_pow_two_sub_one_eq_mod (flagsWord msg) 4
    norm_num at this ⊢
    rw [this]
    omega
  norm_num at h15 h10 h9 h8 h7
  simp only [hop, hrc]
  norm_num
  exact ⟨h15, h10, h9, h8, h7⟩

theorem parseDNSMSG_hdr (cfg : Config) (msg : Mem) (ip : List Nat) :
    (parseDNSMSG cfg msg ip).hdr = parse_header msg := by
  unfold parseDNSMSG
  simp only
  split
  · rfl
  · split
    · rfl
    · split <;> rfl

theorem rd_writeBytes_ne (m : Mem) (off v i : Nat) (h : i ≠ off) :
    rd (writeBytes m off [v]) i = rd m i := by
  unfold rd writeBytes
  have : ¬ (off ≤ i ∧ i < off + [v].length) := by
    simp only [List.length_singleton]; omega
  rw [if_neg this]

theorem rd_writeBytes_eq (m : Mem) (off v : Nat) :
    rd (writeBytes m off [v]) off = v % 256 := by
  unfold rd writeBytes
  have : off ≤ off ∧ off < off + [v].length := by
    simp only [List.length_singleton]; omega
  rw [if_pos this]
  simp

/-- An answer record of type A whose name decodes: `dns_answer` stores the four
bytes that follow the fixed fields and returns the pointer behind them. -/
theorem dns_answer_type_A (cfg : Config) (msg : Mem) (cp n : Nat) (ip : List Nat)
    (hname : (parse_name msg cp (MAXCNAME cfg)).ret = (n : Int))
    (htype : get16 msg (cp + n) = 1) :
    dns_answer cfg msg cp ip =
      { cp := some (cp + n + 10 + 4),
        ip := [rd msg (cp + n + 10), rd msg (cp + n + 10 + 1), rd msg (cp + n + 10 + 2),
          rd msg (cp + n + 10 + 3)] } := by
  have hne : ¬ ((n : Int) = -1) := by omega
  unfold dns_answer
  simp only [hname, if_neg hne, Int.toNat_ofNat, htype, TYPE_A, if_true]

theorem dns_question_none_iff (cfg : Config) (msg : Mem) (cp : Nat) :
    dns_question cfg msg cp = none ↔ (parse_name msg cp (MAXCNAME cfg)).ret = -1 := by
  unfold dns_question
  simp only
  split <;> simp_all

theorem question_loop_none_iff (cfg : Config) (msg : Mem) :
    ∀ (n cp : Nat), question_loop cfg msg n cp = none ↔
      ∃ i, i < n ∧ ∃ c, question_loop cfg msg i cp = some c
        ∧ (parse_name msg c (MAXCNAME cfg)).ret = -1 := by
  intro n
  induction n with
  | zero => intro cp; simp [question_loop]
  | succ n ih =>
    intro cp
    cases hq : dns_question cfg msg cp with
    | none =>
      have hf := (dns_question_none_iff cfg msg cp).mp hq
      simp only [question_loop, hq, true_iff]
      exact ⟨0, by omega, cp, rfl, hf⟩
    | some cp1 =>
      have hnf : ¬ (parse_name msg cp (MAXCNAME cfg)).ret = -1 := by
        intro h
        rw [(dns_question_none_iff cfg msg cp).mpr h] at hq
        cases hq
      simp only [question_loop, hq]
      rw [ih cp1]
      constructor
      · rintro ⟨i, hi, c, hc, hfail⟩
        exact ⟨i + 1, by omega, c, by simp only [question_loop, hq]; exact hc, hfail⟩
      · rintro ⟨i, hi, c, hc, hfail⟩
        cases i with
        | zero =>
          simp only [question_loop, Option.some.injEq] at hc
          subst hc
          exact absurd hfail hnf
        | succ k =>
          simp only [question_loop, hq] at hc
          exact ⟨k, by omega, c, hc, hfail⟩

theorem dns_answer_none_iff (cfg : Config) (msg : Mem) (cp : Nat) (ip : List Nat) :
    (dns_answer cfg msg cp ip).cp = none ↔ answerNameFails cfg msg cp := by
  unfold dns_answer answerNameFails rdataNameFails
  simp only [TYPE_A, TYPE_CNAME, TYPE_MB, TYPE_MG, TYPE_MR, TYPE_NS, TYPE_PTR, TYPE_HINFO,
    TYPE_MX, TYPE_SOA]
  split_ifs <;> simp_all
  all_goals omega

theorem dns_answer_cp_indep (cfg : Config) (msg : Mem) (cp : Nat) (ip ip2 : List Nat) :
    (dns_answer cfg msg cp ip).cp = (dns_answer cfg msg cp ip2).cp := by
  unfold dns_answer
  simp only
  split_ifs <;> rfl

theorem answer_loop_cp_indep (cfg : Config) (msg : Mem) :
    ∀ (n cp : Nat) (ip ip2 : List Nat),
      (answer_loop cfg msg n cp ip).cp = (answer_loop cfg msg n cp ip2).cp := by
  intro n
  induction n with
  | zero => intro cp ip ip2; rfl
  | succ n ih =>
    intro cp ip ip2
    have h := dns_answer_cp_indep cfg msg cp ip ip2
    simp only [answer_loop]
    cases h1 : (dns_answer cfg msg cp ip).cp with
    | none =>
      rw [h1] at h
      simp only [← h, h1]
    | some c1 =>
      rw [h1] at h
      simp only [← h]
      exact ih c1 _ _

theorem answer_loop_none_iff (cfg : Config) (msg : Mem) :
    ∀ (n cp : Nat) (ip : List Nat), (answer_loop cfg msg n cp ip).cp = none ↔
      ∃ j, j < n ∧ ∃ c, (answer_loop cfg msg j cp ip).cp = some c
        ∧ answerNameFails cfg msg c := by
  intro n
  induction n with
  | zero => intro cp ip; simp [answer_loop]
  | succ n ih =>
    intro cp ip
    cases ha : (dns_answer cfg msg cp ip).cp with
    | none =>
      have hf := (dns_answer_none_iff cfg msg cp ip).mp ha
      simp only [answer_loop, ha, true_iff]
      exact ⟨0, by omega, cp, rfl, hf⟩
    | some cp1 =>
      have hnf : ¬ answerNameFails cfg msg cp := by
        intro h
        rw [(dns_answer_none_iff cfg msg cp ip).mpr h] at ha
        cases ha
      simp only [answer_loop, ha]
      rw [ih cp1]
      constructor
      · rintro ⟨j, hj, c, hc, hfail⟩
        exact ⟨j + 1, by omega, c, by simp only [answer_loop, ha]; exact hc, hfail⟩
      · rintro ⟨j, hj, c, hc, hfail⟩
        cases j with
        | zero =>
          simp only [answer_loop, Option.some.injEq] at hc
          subst hc
          exact absurd hfail hnf
        | succ k =>
          simp only [answer_loop, ha] at hc
          exact ⟨k, by omega, c, hc, hfail⟩

/-! ## Lemmas on the state machine -/

theorem run_idle (cfg : Config) (c : Ctx) (rx : Rx) (dns_ip name ip : List Nat)
    (h : c.dnsState = DNS_STATE_IDLE) :
    (DNS_run cfg c rx dns_ip name ip).ctx.dnsState = DNS_STATE_SOCK_CREATE
    ∧ (DNS_run cfg c rx dns_ip name ip).ctx.retry_count = 0
    ∧ (DNS_run cfg c rx dns_ip name ip).ctx.dns_1s_tick = 0 := by
  unfold DNS_run
  simp only [h, if_true]
  exact ⟨trivial, trivial, trivial⟩

theorem run_sock_create (cfg : Config) (c : Ctx) (rx : Rx) (dns_ip name ip : List Nat)
    (h : c.dnsState = DNS_STATE_SOCK_CREATE) :
    (DNS_run cfg c rx dns_ip name ip).ctx.dnsState = DNS_STATE_SEND_REQUEST
    ∧ (DNS_run cfg c rx dns_ip name ip).ctx.retry_count = c.retry_count
    ∧ (DNS_run cfg c rx dns_ip name ip).ctx.calls
        = c.calls ++ [SockCall.sendto (readBytes c.pDNSMSG 0 c.len) dns_ip IPPORT_DOMAIN] := by
  unfold DNS_run
  have h0 : ¬ (DNS_STATE_SOCK_CREATE = DNS_STATE_IDLE) := by decide
  simp only [h, h0, if_false, if_true]
  exact ⟨trivial, trivial, trivial⟩

/-- In the state "request sent", with nothing to receive and the wait time not
reached, `DNS_run` leaves the state and both counters as they are. -/
theorem run_send_request_wait (cfg : Config) (c : Ctx) (dns_ip name ip : List Nat)
    (h : c.dnsState = DNS_STATE_SEND_REQUEST) (ht : c.dns_1s_tick < cfg.DNS_WAIT_TIME) :
    (DNS_run cfg c noData dns_ip name ip).ctx.dnsState = DNS_STATE_SEND_REQUEST
    ∧ (DNS_run cfg c noData dns_ip name ip).ctx.retry_count = c.retry_count
    ∧ (DNS_run cfg c noData dns_ip name ip).ctx.dns_1s_tick = c.dns_1s_tick := by
  unfold DNS_run
  have h0 : ¬ (DNS_STATE_SEND_REQUEST = DNS_STATE_IDLE) := by decide
  have h1 : ¬ (DNS_STATE_SEND_REQUEST = DNS_STATE_SOCK_CREATE) := by decide
  have ht2 : ¬ (c.dns_1s_tick ≥ cfg.DNS_WAIT_TIME) := by omega
  simp [h, h0, h1, noData, check_DNS_timeout, ht2]

/-- In the state "request sent", with nothing to receive, the wait time reached
and retries left, `DNS_run` goes back to "socket ready" with one more retry. -/
theorem run_send_request_retry (cfg : Config) (c : Ctx) (dns_ip name ip : List Nat)
    (h : c.dnsState = DNS_STATE_SEND_REQUEST) (ht : cfg.DNS_WAIT_TIME ≤ c.dns_1s_tick)
    (hr : c.retry_count < cfg.MAX_DNS_RETRY) :
    (DNS_run cfg c noData dns_ip name ip).ctx.dnsState = DNS_STATE_SOCK_CREATE
    ∧ (DNS_run cfg c noData dns_ip name ip).ctx.retry_count = (c.retry_count + 1) % 256
    ∧ (DNS_run cfg c noData dns_ip name ip).ctx.dns_1s_tick = 0 := by
  unfold DNS_run
  have h0 : ¬ (DNS_STATE_SEND_REQUEST = DNS_STATE_IDLE) := by decide
  have h1 : ¬ (DNS_STATE_SEND_REQUEST = DNS_STATE_SOCK_CREATE) := by decide
  have ht2 : c.dns_1s_tick ≥ cfg.DNS_WAIT_TIME := ht
  have hr2 : ¬ (c.retry_count ≥ cfg.MAX_DNS_RETRY) := by omega
  simp [h, h0, h1, noData, check_DNS_timeout, ht2, hr2]

/-- In the state "request sent", with nothing to receive, the wait time reached
and no retry left, `DNS_run` goes to "failed" and returns -2. -/
theorem run_send_request_fail (cfg : Config) (c : Ctx) (dns_ip name ip : List Nat)
    (h : c.dnsState = DNS_STATE_SEND_REQUEST) (ht : cfg.DNS_WAIT_TIME ≤ c.dns_1s_tick)
    (hr : cfg.MAX_DNS_RETRY ≤ c.retry_count) :
    (DNS_run cfg c noData dns_ip name ip).ctx.dnsState = DNS_STATE_FAILED
    ∧ (DNS_run cfg c noData dns_ip name ip).ret = -2 := by
  unfold DNS_run
  have h0 : ¬ (DNS_STATE_SEND_REQUEST = DNS_STATE_IDLE) := by decide
  have h1 : ¬ (DNS_STATE_SEND_REQUEST = DNS_STATE_SOCK_CREATE) := by decide
  have ht2 : c.dns_1s_tick ≥ cfg.DNS_WAIT_TIME := ht
  have hr2 : c.retry_count ≥ cfg.MAX_DNS_RETRY := hr
  simp [h, h0, h1, noData, check_DNS_timeout, ht2, hr2]

theorem run_failed (cfg : Config) (c : Ctx) (rx : Rx) (dns_ip name ip : List Nat)
    (h : c.dnsState = DNS_STATE_FAILED) :
    (DNS_run cfg c rx dns_ip name ip).ctx.dnsState = DNS_STATE_IDLE := by
  unfold DNS_run
  have h0 : ¬ (DNS_STATE_FAILED = DNS_STATE_IDLE) := by decide
  have h1 : ¬ (DNS_STATE_FAILED = DNS_STATE_SOCK_CREATE) := by decide
  have h2 : ¬ (DNS_STATE_FAILED = DNS_STATE_SEND_REQUEST) := by decide
  have h3 : ¬ (DNS_STATE_FAILED = DNS_STATE_REPLY_RCVD) := by decide
  simp only [h, h0, h1, h2, h3, if_false, if_true]

theorem exec_cons (cfg : Config) (dns_ip name : List Nat) (s : Ctx × List Nat) (e : Event)
    (es : List Event) :
    exec cfg dns_ip name s (e :: es) = exec cfg dns_ip name (step cfg dns_ip name s e) es := rfl

theorem exec_append (cfg : Config) (dns_ip name : List Nat) (s : Ctx × List Nat)
    (es fs : List Event) :
    exec cfg dns_ip name s (es ++ fs) = exec cfg dns_ip name (exec cfg dns_ip name s es) fs := by
  unfold exec
  rw [List.foldl_append]

theorem expired_iff (cfg : Config) (c : Ctx) :
    expired cfg c = true ↔
      c.dnsState = DNS_STATE_SEND_REQUEST ∧ cfg.DNS_WAIT_TIME ≤ c.dns_1s_tick := by
  unfold expired
  simp

/-- While retries are left, a machine that is in "socket ready" or "request sent"
and receives nothing stays in these two states, and its retry counter grows by the
number of expiries. -/
theorem exec_retry_count (cfg : Config) (hmax : cfg.MAX_DNS_RETRY ≤ 255)
    (dns_ip name : List Nat) :
    ∀ (evs : List Event) (s : Ctx × List Nat), quiet evs →
      (s.1.dnsState = DNS_STATE_SOCK_CREATE ∨ s.1.dnsState = DNS_STATE_SEND_REQUEST) →
      s.1.retry_count + expiries cfg dns_ip name s evs ≤ cfg.MAX_DNS_RETRY →
      ((exec cfg dns_ip name s evs).1.dnsState = DNS_STATE_SOCK_CREATE
        ∨ (exec cfg dns_ip name s evs).1.dnsState = DNS_STATE_SEND_REQUEST)
      ∧ (exec cfg dns_ip name s evs).1.retry_count
          = s.1.retry_count + expiries cfg dns_ip name s evs := by
  intro evs
  induction evs with
  | nil => intro s _ hs _; exact ⟨hs, rfl⟩
  | cons e es ih =>
    intro s hq hs hk
    have hqes : quiet es := fun x hx => hq x (by simp [hx])
    rw [exec_cons]
    rcases hq e (by simp) with he | he
    · subst he
      simp only [expiries] at hk ⊢
      exact ih _ hqes hs hk
    · subst he
      simp only [expiries] at hk ⊢
      rcases hs with hs | hs
      · obtain ⟨h1, h2, _⟩ := run_sock_create cfg s.1 noData dns_ip name s.2 hs
        have hne : expired cfg s.1 = false := by
          unfold expired
          rw [hs]
          rfl
        rw [hne] at hk ⊢
        simp only [Bool.false_eq_true, if_false, Nat.zero_add] at hk ⊢
        have := ih (step cfg dns_ip name s (Event.run noData)) hqes (Or.inr h1)
          (by show (DNS_run cfg s.1 noData dns_ip name s.2).ctx.retry_count + _ ≤ _
              rw [h2]; exact hk)
        refine ⟨this.1, ?_⟩
        rw [this.2]
        show (DNS_run cfg s.1 noData dns_ip name s.2).ctx.retry_count + _ = _
        rw [h2]
      · by_cases ht : cfg.DNS_WAIT_TIME ≤ s.1.dns_1s_tick
        · have hex : expired cfg s.1 = true := (expired_iff cfg s.1).mpr ⟨hs, ht⟩
          rw [hex] at hk ⊢
          simp only [if_true] at hk ⊢
          obtain ⟨h1, h2, _⟩ := run_send_request_retry cfg s.1 dns_ip name s.2 hs ht
            (by omega)
          have h2b : (DNS_run cfg s.1 noData dns_ip name s.2).ctx.retry_count
              = s.1.retry_count + 1 := by
            rw [h2]; omega
          have := ih (step cfg dns_ip name s (Event.run noData)) hqes (Or.inl h1)
            (by show (DNS_run cfg s.1 noData dns_ip name s.2).ctx.retry_count + _ ≤ _
                rw [h2b]; omega)
          refine ⟨this.1, ?_⟩
          rw [this.2]
          show (DNS_run cfg s.1 noData dns_ip name s.2).ctx.retry_count + _ = _
          rw [h2b]; omega
        · have hex : expired cfg s.1 = false := by
            cases hh : expired cfg s.1 with
            | false => rfl
            | true => exact absurd ((expired_iff cfg s.1).mp hh).2 ht
          rw [hex] at hk ⊢
          simp only [Bool.false_eq_true, if_false, Nat.zero_add] at hk ⊢
          obtain ⟨h1, h2, _⟩ := run_send_request_wait cfg s.1 dns_ip name s.2 hs (by omega)
          have := ih (step cfg dns_ip name s (Event.run noData)) hqes (Or.inr h1)
            (by show (DNS_run cfg s.1 noData dns_ip name s.2).ctx.retry_count + _ ≤ _
                rw [h2]; exact hk)
          refine ⟨this.1, ?_⟩
          rw [this.2]
          show (DNS_run cfg s.1 noData dns_ip name s.2).ctx.retry_count + _ = _
          rw [h2]

/-- From "idle", while retries are left and nothing is received, the machine is
"idle" (never invoked yet), "socket ready" or "request sent", and once invoked its
retry counter is the number of expiries. -/
theorem exec_from_idle (cfg : Config) (hmax : cfg.MAX_DNS_RETRY ≤ 255)
    (dns_ip name : List Nat) :
    ∀ (evs : List Event) (s : Ctx × List Nat), quiet evs →
      s.1.dnsState = DNS_STATE_IDLE →
      expiries cfg dns_ip name s evs ≤ cfg.MAX_DNS_RETRY →
      (exec cfg dns_ip name s evs).1.dnsState = DNS_STATE_IDLE
      ∨ (((exec cfg dns_ip name s evs).1.dnsState = DNS_STATE_SOCK_CREATE
          ∨ (exec cfg dns_ip name s evs).1.dnsState = DNS_STATE_SEND_REQUEST)
        ∧ (exec cfg dns_ip name s evs).1.retry_count = expiries cfg dns_ip name s evs) := by
  intro evs
  induction evs with
  | nil => intro s _ hs _; exact Or.inl hs
  | cons e es ih =>
    intro s hq hs hk
    have hqes : quiet es := fun x hx => hq x (by simp [hx])
    rw [exec_cons]
    rcases hq e (by simp) with he | he
    · subst he
      simp only [expiries] at hk ⊢
      exact ih _ hqes hs hk
    · subst he
      simp only [expiries] at hk ⊢
      have hne : expired cfg s.1 = false := by
        unfold expired
        rw [hs]
        rfl
      rw [hne] at hk ⊢
      simp only [Bool.false_eq_true, if_false, Nat.zero_add] at hk ⊢
      obtain ⟨h1, h2, _⟩ := run_idle cfg s.1 noData dns_ip name s.2 hs
      have := exec_retry_count cfg hmax dns_ip name es
        (step cfg dns_ip name s (Event.run noData)) hqes (Or.inl h1)
        (by show (DNS_run cfg s.1 noData dns_ip name s.2).ctx.retry_count + _ ≤ _
            rw [h2]; omega)
      right
      refine ⟨this.1, ?_⟩
      rw [this.2]
      show (DNS_run cfg s.1 noData dns_ip name s.2).ctx.retry_count + _ = _
      rw [h2]; omega

/-! ## Further lemmas on `parse_name` -/

/-- A larger step budget does not change a result of the loop of `parse_name`. -/
theorem parse_name_loop_mono (msg : Mem) :
    ∀ (f cp : Nat) (len clen : Int) (indirect : Bool) (nseg : Nat) (buf : List Nat)
      (r : ParseName),
      parse_name_loop msg f cp len clen indirect nseg buf = some r →
      ∀ f2, f ≤ f2 → parse_name_loop msg f2 cp len clen indirect nseg buf = some r := by
  intro f
  induction f with
  | zero => intro cp len clen indirect nseg buf r h; simp [parse_name_loop] at h
  | succ n ih =>
    intro cp len clen indirect nseg buf r h f2 hf
    cases f2 with
    | zero => omega
    | succ m =>
      unfold parse_name_loop at h ⊢
      simp only at h ⊢
      by_cases hz : (read_seg msg cp clen indirect).slen = 0
      · rw [if_pos hz] at h ⊢
        exact h
      · rw [if_neg hz] at h ⊢
        by_cases hneg : toInt16 (len - (((read_seg msg cp clen indirect).slen : Int) + 1)) < 0
        · rw [if_pos hneg] at h ⊢
          exact h
        · rw [if_neg hneg] at h ⊢
          exact ih _ _ _ _ _ _ r h m (by omega)

/-- The result of `parse_name` is the result of its loop on any step budget that
is not exhausted. -/
theorem parse_name_eq_of_loop (msg : Mem) (cp : Nat) (len : Int) (f : Nat) (r : ParseName)
    (h : parse_name_loop msg f cp (toInt16 len) 0 false 0 [] = some r) :
    parse_name msg cp len = r := by
  obtain ⟨r2, hr2⟩ := Option.isSome_iff_exists.mp (parse_name_loop_total msg cp len 0 false 0 [])
  have e : parse_name msg cp len = r2 := get_of_eq_some _ hr2
  rw [e]
  rcases Nat.le_total f parseFuel with hle | hle
  · have := parse_name_loop_mono msg f _ _ _ _ _ _ r h parseFuel hle
    rw [hr2] at this
    cases this
    rfl
  · have := parse_name_loop_mono msg parseFuel _ _ _ _ _ _ r2 hr2 f hle
    rw [h] at this
    cases this
    rfl

theorem encodeLabels_length_ge (labels : List (List Nat)) :
    labels.length ≤ (encodeLabels labels).length := by
  induction labels with
  | nil => simp
  | cons x xs ih => simp [encodeLabels]; omega

/-- Decoding a run of valid labels that the budget covers: the loop reaches the
byte behind them having stored every label followed by a dot. -/
theorem parse_name_loop_run (msg : Mem) :
    ∀ (labels : List (List Nat)) (f cp : Nat) (len clen : Int) (nseg : Nat)
      (buf : List Nat),
      (∀ l ∈ labels, ValidLabel 63 l) →
      HoldsAt msg cp (encodeLabels labels) →
      ((encodeLabels labels).length : Int) ≤ len → len ≤ 32767 →
      parse_name_loop msg (labels.length + f) cp len clen false nseg buf
        = parse_name_loop msg f (cp + (encodeLabels labels).length)
            (len - (encodeLabels labels).length) (clen + (encodeLabels labels).length) false
            (nseg + labels.length) (buf ++ dottedDot labels) := by
  intro labels
  induction labels with
  | nil =>
    intro f cp len clen nseg buf _ _ _ _
    simp [encodeLabels, dottedDot]
  | cons l ls ih =>
    intro f cp len clen nseg buf hv hm hlen h15
    obtain ⟨hl0, hl63, hlb⟩ := hv l (by simp)
    have hlen0 : l.length ≠ 0 := by
      intro h; exact hl0 (List.length_eq_zero.mp h)
    simp only [encodeLabels, List.cons_append] at hm
    obtain ⟨hhead, hrest⟩ := hm
    rw [holdsAt_append] at hrest
    obtain ⟨hbytes, htail⟩ := hrest
    have hrd : rd msg cp = l.length := by
      simp only [rd, hhead]
      exact Nat.mod_eq_of_lt (by omega)
    have hseg := read_seg_label msg cp clen false
      (by rw [hrd]; exact not_pointer_of_lt _ (by omega))
    simp only [encodeLabels, List.length_append, List.length_cons] at hlen
    have hfuel : (l :: ls).length + f = (ls.length + f) + 1 := by
      simp only [List.length_cons]; omega
    rw [hfuel, parse_name_loop]
    simp only [hseg, hrd, if_neg hlen0]
    have hconv : toInt16 (len - ((l.length : Int) + 1)) = len - ((l.length : Int) + 1) :=
      toInt16_of_range _ (by omega) (by omega)
    have hnn : ¬ (len - ((l.length : Int) + 1) < 0) := by push_cast at hlen; omega
    rw [hconv, if_neg hnn]
    rw [readBytes_of_holdsAt msg l (cp + 1) hbytes (fun b hb => (hlb b hb).2.2)]
    rw [ih f (cp + 1 + l.length) _ _ (nseg + 1) _ (fun x hx => hv x (by simp [hx]))
      htail (by push_cast at hlen ⊢; omega) (by omega)]
    simp only [encodeLabels, dottedDot, List.length_append, List.length_cons]
    congr 1
    · omega
    · push_cast; ring
    · simp only [Bool.false_eq_true, if_false]
      push_cast
      ring
    · omega
    · simp

theorem not_pointer_of_lt_192 (n : Nat) (h : n < 192) : n &&& 0xc0 ≠ 0xc0 := by
  have := @Nat.and_le_left n 0xc0
  omega

/-- A name field made of valid labels followed by a length byte `b` that asks for
more than what is left of the output budget: `parse_name` returns -1 having stored
the labels before it. -/
theorem parse_name_over_budget (msg : Mem) (cp : Nat) (len : Int)
    (labels : List (List Nat)) (b : Nat)
    (hv : ∀ l ∈ labels, ValidLabel 63 l)
    (hm : HoldsAt msg cp (encodeLabels labels ++ [b]))
    (hb0 : b ≠ 0) (hb : b < 192)
    (hlen : ((encodeLabels labels).length : Int) ≤ len) (h15 : len ≤ 32767)
    (hover : len < ((encodeLabels labels).length : Int) + b + 1) :
    parse_name msg cp len = { ret := -1, out := dottedDot labels } := by
  have hconv : toInt16 len = len := toInt16_of_range _ (by omega) h15
  obtain ⟨hpre, hlast⟩ := (holdsAt_append msg _ _ cp).mp hm
  have hbyte : msg (cp + (encodeLabels labels).length) = b := hlast.1
  have hrd : rd msg (cp + (encodeLabels labels).length) = b := by
    simp only [rd, hbyte]
    exact Nat.mod_eq_of_lt (by omega)
  apply parse_name_eq_of_loop msg cp len (labels.length + 1)
  rw [hconv, parse_name_loop_run msg labels 1 cp len 0 0 [] hv hpre hlen h15]
  have hseg := read_seg_label msg (cp + (encodeLabels labels).length)
    (0 + ((encodeLabels labels).length : Int)) false
    (by rw [hrd]; exact not_pointer_of_lt_192 _ hb)
  unfold parse_name_loop
  simp only [hseg, hrd, if_neg hb0]
  have hc2 : toInt16 (len - ((encodeLabels labels).length : Int) - ((b : Int) + 1))
      = len - ((encodeLabels labels).length : Int) - ((b : Int) + 1) :=
    toInt16_of_range _ (by omega) (by omega)
  have hneg : len - ((encodeLabels labels).length : Int) - ((b : Int) + 1) < 0 := by omega
  rw [hc2, if_pos hneg]
  simp

/-! ## Further lemmas on `parseDNSMSG` -/

/-- Only a type-A record whose name decodes changes the output address. -/
theorem dns_answer_ip_of_not_A (cfg : Config) (msg : Mem) (c : Nat) (ip : List Nat)
    (h : ¬ typeAAt cfg msg c) : (dns_answer cfg msg c ip).ip = ip := by
  unfold typeAAt at h
  unfold dns_answer
  simp only
  split_ifs <;> simp_all

theorem answer_loop_succ_some (cfg : Config) (msg : Mem) (n cp c1 : Nat) (ip : List Nat)
    (h : (dns_answer cfg msg cp ip).cp = some c1) :
    answer_loop cfg msg (n + 1) cp ip = answer_loop cfg msg n c1 (dns_answer cfg msg cp ip).ip := by
  simp only [answer_loop, h]

theorem answer_loop_succ_none (cfg : Config) (msg : Mem) (n cp : Nat) (ip : List Nat)
    (h : (dns_answer cfg msg cp ip).cp = none) :
    answer_loop cfg msg (n + 1) cp ip = dns_answer cfg msg cp ip := by
  simp only [answer_loop, h]

/-- A run of answer records none of which is a decodable type-A record leaves the
output address as it was. -/
theorem answer_loop_ip_no_A (cfg : Config) (msg : Mem) :
    ∀ (m cp : Nat) (ip : List Nat),
      (∀ k, k < m → ∀ ck, (answer_loop cfg msg k cp []).cp = some ck → ¬ typeAAt cfg msg ck) →
      (answer_loop cfg msg m cp ip).ip = ip := by
  intro m
  induction m with
  | zero => intro cp ip _; rfl
  | succ m ih =>
    intro cp ip h
    have h0 : ¬ typeAAt cfg msg cp := h 0 (by omega) cp rfl
    have hip := dns_answer_ip_of_not_A cfg msg cp ip h0
    cases hc : (dns_answer cfg msg cp ip).cp with
    | none => rw [answer_loop_succ_none cfg msg m cp ip hc, hip]
    | some c1 =>
      rw [answer_loop_succ_some cfg msg m cp c1 ip hc, hip]
      apply ih
      intro k hk ck hck
      have hc0 : (dns_answer cfg msg cp []).cp = some c1 := by
        rw [dns_answer_cp_indep cfg msg cp [] ip]; exact hc
      apply h (k + 1) (by omega) ck
      rw [answer_loop_succ_some cfg msg k cp c1 [] hc0,
        answer_loop_cp_indep cfg msg k c1 _ []]
      exact hck

/-- The answer loop run `a + b` times is the loop run `a` times and then, unless
it has failed, `b` times from where it stands. -/
theorem answer_loop_add (cfg : Config) (msg : Mem) (b : Nat) :
    ∀ (a cp c : Nat) (ip : List Nat), (answer_loop cfg msg a cp ip).cp = some c →
      answer_loop cfg msg (a + b) cp ip
        = answer_loop cfg msg b c (answer_loop cfg msg a cp ip).ip := by
  intro a
  induction a with
  | zero =>
    intro cp c ip h
    simp only [answer_loop, Option.some.injEq] at h
    subst h
    simp [answer_loop]
  | succ a ih =>
    intro cp c ip h
    cases hc : (dns_answer cfg msg cp ip).cp with
    | none =>
      rw [answer_loop_succ_none cfg msg a cp ip hc, hc] at h
      cases h
    | some c1 =>
      rw [answer_loop_succ_some cfg msg a cp c1 ip hc] at h ⊢
      rw [show a + 1 + b = (a + b) + 1 by omega,
        answer_loop_succ_some cfg msg (a + b) cp c1 ip hc]
      exact ih c1 c _ h

theorem parseDNSMSG_ip (cfg : Config) (msg : Mem) (ip : List Nat) (cpA : Nat)
    (hq : question_loop cfg msg (get16 msg 4) 12 = some cpA) :
    (parseDNSMSG cfg msg ip).ip = (answer_loop cfg msg (get16 msg 6) cpA ip).ip := by
  have hqd : (parse_header msg).qdcount = get16 msg 4 := rfl
  have han : (parse_header msg).ancount = get16 msg 6 := rfl
  unfold parseDNSMSG
  simp only [hqd, han, hq]
  split
  · rfl
  · split <;> rfl

theorem parseDNSMSG_ip_of_question_fail (cfg : Config) (msg : Mem) (ip : List Nat)
    (hq : question_loop cfg msg (get16 msg 4) 12 = none) :
    (parseDNSMSG cfg msg ip).ip = ip := by
  have hqd : (parse_header msg).qdcount = get16 msg 4 := rfl
  unfold parseDNSMSG
  simp only [hqd, hq]

/-! ## Further lemmas on the state machine -/

theorem check_DNS_timeout_retry_le (cfg : Config) (c : Ctx)
    (h : c.retry_count ≤ cfg.MAX_DNS_RETRY) :
    (check_DNS_timeout cfg c).2.retry_count ≤ cfg.MAX_DNS_RETRY := by
  unfold check_DNS_timeout
  by_cases h1 : c.dns_1s_tick ≥ cfg.DNS_WAIT_TIME
  · by_cases h2 : c.retry_count ≥ cfg.MAX_DNS_RETRY
    · simp only [if_pos h1, if_pos h2]
      exact Nat.zero_le _
    · simp only [if_pos h1, if_neg h2]
      have := Nat.mod_le (c.retry_count + 1) 256
      omega
  · simp only [if_neg h1]
    exact h

theorem check_DNS_timeout_state (cfg : Config) (c : Ctx) :
    (check_DNS_timeout cfg c).2.dnsState = c.dnsState := by
  unfold check_DNS_timeout
  by_cases h1 : c.dns_1s_tick ≥ cfg.DNS_WAIT_TIME
  · by_cases h2 : c.retry_count ≥ cfg.MAX_DNS_RETRY
    · simp only [if_pos h1, if_pos h2]
    · simp only [if_pos h1, if_neg h2]
  · simp only [if_neg h1]

/-- One invocation of `DNS_run` in the state "request sent" keeps the invariant,
whatever the transport delivers. -/
theorem run_send_request_inv (cfg : Config) (c : Ctx) (rx : Rx) (dns_ip name ip : List Nat)
    (h : c.dnsState = DNS_STATE_SEND_REQUEST) (hr : c.retry_count ≤ cfg.MAX_DNS_RETRY) :
    stateInv cfg (DNS_run cfg c rx dns_ip name ip).ctx := by
  have e0 : ¬ (DNS_STATE_SEND_REQUEST = DNS_STATE_IDLE) := by decide
  have e1 : ¬ (DNS_STATE_SEND_REQUEST = DNS_STATE_SOCK_CREATE) := by decide
  have hm := Nat.mod_le (c.retry_count + 1) 256
  unfold stateInv DNS_run check_DNS_timeout
  simp only [h, e0, e1, if_false, if_true]
  by_cases hd : rx.rsr % 65536 > 0
  · by_cases ht : c.dns_1s_tick ≥ cfg.DNS_WAIT_TIME
    · by_cases hr2 : c.retry_count ≥ cfg.MAX_DNS_RETRY
      · simp [hd, ht, hr2]
      · simp [hd, ht, hr2]
        omega
    · simp [hd, ht]
      exact hr
  · by_cases ht : c.dns_1s_tick ≥ cfg.DNS_WAIT_TIME
    · by_cases hr2 : c.retry_count ≥ cfg.MAX_DNS_RETRY
      · simp [hd, ht, hr2]
      · simp [hd, ht, hr2]
        omega
    · simp [hd, ht]
      exact hr

/-- One invocation of `DNS_run` keeps the invariant, whatever the transport
delivers. -/
theorem DNS_run_inv (cfg : Config) (c : Ctx) (rx : Rx) (dns_ip name ip : List Nat)
    (h : stateInv cfg c) : stateInv cfg (DNS_run cfg c rx dns_ip name ip).ctx := by
  obtain ⟨hs, hr⟩ := h
  rcases hs with h0 | h1 | h2 | h4
  · obtain ⟨g1, g2, _⟩ := run_idle cfg c rx dns_ip name ip h0
    unfold stateInv
    rw [g1, g2]
    exact ⟨Or.inr (Or.inl rfl), Nat.zero_le _⟩
  · obtain ⟨g1, g2, _⟩ := run_sock_create cfg c rx dns_ip name ip h1
    unfold stateInv
    rw [g1, g2]
    exact ⟨Or.inr (Or.inr (Or.inl rfl)), hr⟩
  · exact run_send_request_inv cfg c rx dns_ip name ip h2 hr
  · have e0 : ¬ (DNS_STATE_FAILED = DNS_STATE_IDLE) := by decide
    have e1 : ¬ (DNS_STATE_FAILED = DNS_STATE_SOCK_CREATE) := by decide
    have e2 : ¬ (DNS_STATE_FAILED = DNS_STATE_SEND_REQUEST) := by decide
    have e3 : ¬ (DNS_STATE_FAILED = DNS_STATE_REPLY_RCVD) := by decide
    unfold stateInv DNS_run
    simp only [h4, e0, e1, e2, e3, if_false, if_true]
    exact ⟨Or.inl trivial, hr⟩

theorem exec_inv (cfg : Config) (dns_ip name : List Nat) :
    ∀ (evs : List Event) (s : Ctx × List Nat), stateInv cfg s.1 →
      stateInv cfg (exec cfg dns_ip name s evs).1 := by
  intro evs
  induction evs with
  | nil => intro s h; exact h
  | cons e es ih =>
    intro s h
    rw [exec_cons]
    apply ih
    cases e with
    | tick => exact h
    | run rx => exact DNS_run_inv cfg s.1 rx dns_ip name s.2 h

/-! ## Lemmas on the number of iterations of `parse_name` -/

theorem read_seg_indirect_indep (msg : Mem) (cp : Nat) (clen : Int) (indirect : Bool) :
    (read_seg msg cp clen indirect).indirect = (read_seg msg cp 0 indirect).indirect := by
  unfold read_seg
  simp only
  split <;> rfl

/-- The counting loop is left on the step budgets on which the loop of `parse_name`
is left: both take the same branches. -/
theorem parse_name_count_isSome (msg : Mem) :
    ∀ (f cp : Nat) (len clen : Int) (indirect : Bool) (nseg : Nat) (buf : List Nat)
      (iters ns : Nat),
      (parse_name_count msg f cp len indirect iters ns).isSome
        = (parse_name_loop msg f cp len clen indirect nseg buf).isSome := by
  intro f
  induction f with
  | zero => intro cp len clen indirect nseg buf iters ns; rfl
  | succ n ih =>
    intro cp len clen indirect nseg buf iters ns
    unfold parse_name_count parse_name_loop
    simp only
    rw [read_seg_slen_indep msg cp clen indirect, read_seg_cp_indep msg cp clen indirect,
      read_seg_indirect_indep msg cp clen indirect,
      read_seg_slen_indep msg cp 0 indirect, read_seg_cp_indep msg cp 0 indirect]
    by_cases hz : (read_seg msg cp 0 false).slen = 0
    · simp only [if_pos hz, Option.isSome_some]
    · simp only [if_neg hz]
      by_cases hneg : toInt16 (len - (((read_seg msg cp 0 false).slen : Int) + 1)) < 0
      · simp only [if_pos hneg, Option.isSome_some]
      · simp only [if_neg hneg]
        exact ih _ _ _ _ _ _ _ _

/-- When the counting loop is left, the body has been entered at most once per unit
of step budget, and every entry but the last has copied one label. -/
theorem parse_name_count_bound (msg : Mem) :
    ∀ (f cp : Nat) (len : Int) (indirect : Bool) (iters ns : Nat) (c : Nat × Nat),
      parse_name_count msg f cp len indirect iters ns = some c →
      c.1 ≤ iters + f ∧ c.2 + iters + 1 = ns + c.1 := by
  intro f
  induction f with
  | zero => intro cp len indirect iters ns c h; simp [parse_name_count] at h
  | succ n ih =>
    intro cp len indirect iters ns c h
    unfold parse_name_count at h
    simp only at h
    by_cases hz : (read_seg msg cp 0 indirect).slen = 0
    · rw [if_pos hz] at h
      cases h
      constructor <;> simp only <;> omega
    · rw [if_neg hz] at h
      by_cases hneg : toInt16 (len - (((read_seg msg cp 0 indirect).slen : Int) + 1)) < 0
      · rw [if_pos hneg] at h
        cases h
        constructor <;> simp only <;> omega
      · rw [if_neg hneg] at h
        have := ih _ _ _ _ _ c h
        omega

/-- An iteration that does not leave the loop lowers a non-negative budget by at
least 2 and keeps it non-negative. -/
theorem budget_step (msg : Mem) (cp : Nat) (len clen : Int) (indirect : Bool)
    (h0 : 0 ≤ len) (h15 : len ≤ 32767)
    (hz : (read_seg msg cp clen indirect).slen ≠ 0)
    (hn : ¬ toInt16 (len - (((read_seg msg cp clen indirect).slen : Int) + 1)) < 0) :
    toInt16 (len - (((read_seg msg cp clen indirect).slen : Int) + 1)) ≤ len - 2
    ∧ 0 ≤ toInt16 (len - (((read_seg msg cp clen indirect).slen : Int) + 1)) := by
  have hs := read_seg_slen_lt msg cp clen indirect
  have hconv : toInt16 (len - (((read_seg msg cp clen indirect).slen : Int) + 1))
      = len - (((read_seg msg cp clen indirect).slen : Int) + 1) :=
    toInt16_of_range _ (by omega) (by omega)
  rw [hconv] at hn ⊢
  omega

/-- The value returned by a successful `parse_name` is the length of the name
field at the cursor. -/
theorem parse_name_ret_of_field (msg : Mem) (c n : Nat) (len : Int)
    (hf : NameField msg c n) (hok : (parse_name msg c len).ret ≠ -1) :
    (parse_name msg c len).ret = (n : Int) := by
  obtain ⟨r, hr⟩ := Option.isSome_iff_exists.mp (parse_name_loop_total msg c len 0 false 0 [])
  have e : parse_name msg c len = r := get_of_eq_some _ hr
  rw [e] at hok ⊢
  obtain ⟨k, hk, hret⟩ := parse_name_loop_ret msg _ _ _ _ _ _ r hr hok
  rw [hret, NameField_unique msg c k n hk hf]
  omega

/-- An answer record whose rdata is a single name, both names decoding:
`dns_answer` returns the pointer behind the rdata name and leaves the address. -/
theorem dns_answer_name_type (cfg : Config) (msg : Mem) (cp n m : Nat) (ip : List Nat)
    (hname : (parse_name msg cp (MAXCNAME cfg)).ret = (n : Int))
    (htype : get16 msg (cp + n) = TYPE_CNAME ∨ get16 msg (cp + n) = TYPE_MB
      ∨ get16 msg (cp + n) = TYPE_MG ∨ get16 msg (cp + n) = TYPE_MR
      ∨ get16 msg (cp + n) = TYPE_NS ∨ get16 msg (cp + n) = TYPE_PTR)
    (hrdata : (parse_name msg (cp + n + 10) (MAXCNAME cfg)).ret = (m : Int)) :
    dns_answer cfg msg cp ip = { cp := some (cp + n + 10 + m), ip := ip } := by
  have hne : ¬ ((n : Int) = -1) := by omega
  have hme : ¬ ((m : Int) = -1) := by omega
  have hA : ¬ (get16 msg (cp + n) = TYPE_A) := by
    rcases htype with h | h | h | h | h | h <;> rw [h] <;> decide
  have hpos : cp + n + 2 + 2 + 4 + 2 = cp + n + 10 := by omega
  unfold dns_answer
  simp only [hname, if_neg hne, Int.toNat_ofNat, if_neg hA, if_pos htype, hpos, hrdata,
    if_neg hme]

/-- On a question section laid out as the wire format says, the question loop of
`parseDNSMSG` ends at the end of the section. -/
theorem question_loop_section (cfg : Config) (msg : Mem) (c k e : Nat)
    (h : QuestionSection cfg msg c k e) : question_loop cfg msg k c = some e := by
  induction h with
  | done c => rfl
  | question c n k e hf hok _ ih =>
    have hname := parse_name_ret_of_field msg c n _ hf hok
    have hne : ¬ ((n : Int) = -1) := by omega
    have hq : dns_question cfg msg c = some (c + n + 4) := by
      unfold dns_question
      simp only [hname, if_neg hne, Int.toNat_ofNat]
    simp only [question_loop, hq, ih]

/-- On an answer section laid out as the wire format says, the answer loop of
`parseDNSMSG` decodes every record and leaves the address of the last type-A
record. -/
theorem answer_loop_section (cfg : Config) (msg : Mem) (c : Nat)
    (recs : List (Option (List Nat))) (h : AnswerSection cfg msg c recs) :
    ∀ ip, ∃ e, answer_loop cfg msg recs.length c ip
      = { cp := some e, ip := lastAddress recs ip } := by
  induction h with
  | done c => intro ip; exact ⟨c, rfl⟩
  | typeA c n a0 a1 a2 a3 rest hf hok ht _ h0 h1 h2 h3 _ ih =>
    intro ip
    have hname := parse_name_ret_of_field msg c n _ hf hok
    have hans := dns_answer_type_A cfg msg c n ip hname ht
    have hcp : (dns_answer cfg msg c ip).cp = some (c + n + 10 + 4) := by rw [hans]
    obtain ⟨e, he⟩ := ih (dns_answer cfg msg c ip).ip
    refine ⟨e, ?_⟩
    rw [List.length_cons, answer_loop_succ_some cfg msg rest.length c _ ip hcp, he, hans]
    subst h0 h1 h2 h3
    rfl
  | nameType c n m rest hf hok ht _ hf2 hok2 _ ih =>
    intro ip
    have hname := parse_name_ret_of_field msg c n _ hf hok
    have hrdata := parse_name_ret_of_field msg (c + n + 10) m _ hf2 hok2
    have hans := dns_answer_name_type cfg msg c n m ip hname ht hrdata
    have hcp : (dns_answer cfg msg c ip).cp = some (c + n + 10 + m) := by rw [hans]
    obtain ⟨e, he⟩ := ih (dns_answer cfg msg c ip).ip
    refine ⟨e, ?_⟩
    rw [List.length_cons, answer_loop_succ_some cfg msg rest.length c _ ip hcp, he, hans]
    rfl

/-- The value returned by `parseDNSMSG`, in terms of the records as its own loops
reach them (`questionSectionFails`, `answerSectionFails`): -1 exactly when a name
met on the way fails to decode, otherwise 1 when the rcode is 0 and 0 when it is
not; the rcode is kept in the decoded header. -/
theorem parseDNSMSG_ret_by_cursor (cfg : Config) (msg : Mem) (ip : List Nat) :
    ((parseDNSMSG cfg msg ip).ret = -1
        ↔ (questionSectionFails cfg msg ∨ answerSectionFails cfg msg))
    ∧ ((parseDNSMSG cfg msg ip).ret = 1
        ↔ (¬ (questionSectionFails cfg msg ∨ answerSectionFails cfg msg)
            ∧ flagsWord msg % 16 = 0))
    ∧ ((parseDNSMSG cfg msg ip).ret = 0
        ↔ (¬ (questionSectionFails cfg msg ∨ answerSectionFails cfg msg)
            ∧ flagsWord msg % 16 ≠ 0))
    ∧ (parseDNSMSG cfg msg ip).hdr.rcode = flagsWord msg % 16 := by
  have hrc : (parse_header msg).rcode = flagsWord msg % 16 := by rw [parse_header_eq]
  have hqd : (parse_header msg).qdcount = get16 msg 4 := rfl
  have han : (parse_header msg).ancount = get16 msg 6 := rfl
  have hqiff := question_loop_none_iff cfg msg (get16 msg 4) 12
  refine ⟨?_, ?_, ?_, by rw [parseDNSMSG_hdr, hrc]⟩
  all_goals
    unfold parseDNSMSG
    simp only [hqd, han, hrc]
    cases hq : question_loop cfg msg (get16 msg 4) 12 with
    | none =>
      have hqf : questionSectionFails cfg msg := hqiff.mp hq
      simp [hqf]
    | some cpA =>
      have hqf : ¬ questionSectionFails cfg msg := by
        intro h
        rw [hqiff.mpr h] at hq
        cases hq
      have haiff : (answer_loop cfg msg (get16 msg 6) cpA ip).cp = none
          ↔ answerSectionFails cfg msg := by
        rw [answer_loop_none_iff]
        unfold answerSectionFails
        constructor
        · rintro ⟨j, hj, c, hc, hfail⟩
          rw [answer_loop_cp_indep cfg msg j cpA ip []] at hc
          exact ⟨cpA, hq, j, hj, c, hc, hfail⟩
        · rintro ⟨cpB, hqB, j, hj, c, hc, hfail⟩
          rw [hq] at hqB
          cases hqB
          rw [answer_loop_cp_indep cfg msg j cpA [] ip] at hc
          exact ⟨j, hj, c, hc, hfail⟩
      cases ha : (answer_loop cfg msg (get16 msg 6) cpA ip).cp with
      | none =>
        have haf : answerSectionFails cfg msg := haiff.mp ha
        simp only [ha]
        simp [haf]
      | some c =>
        have haf : ¬ answerSectionFails cfg msg := by
          intro h
          rw [haiff.mpr h] at ha
          cases ha
        simp only [ha, hqf, haf, or_self, not_false_eq_true, true_and]
        by_cases hz : flagsWord msg % 16 = 0
        · simp [hz]
        · simp [hz]

/-! ## Claims -/

/-- C1. For `op = 0` and every name made of one or more non-empty labels of at most
63 bytes separated by single dots that fits the buffers (`sname`, of `MAXCNAME`
characters, and `buf`, of `len` bytes, `len` within the `int16_t` result),
`dns_makequery` stores exactly: the message id, big-endian, equal to the previous
`DNS_MSGID` plus one modulo 65536, which is also the new `DNS_MSGID`; flags 0x0100;
qdcount 1; ancount, nscount and arcount 0; each label as one length byte followed by
its bytes; one zero byte; type 0x0001; class 0x0001; and it returns the number of
bytes stored, `12 + (length of name + 2) + 4`. For "www.example.com" (in a buffer
of 256 bytes) the bytes after the id are 01 00, 00 01, 00 00, 00 00, 00 00,
3 www 7 example 3 com 0, 00 01, 00 01 and the result is 33. -/
theorem C1_dns_makequery_builds_query (cfg : Config) (msgid len : Nat)
    (labels : List (List Nat)) (hne : labels ≠ [])
    (hv : ∀ l ∈ labels, ValidLabel 63 l)
    (_hsname : (dotted labels).length + 1 ≤ MAXCNAME cfg)
    (hbuf : 12 + ((dotted labels).length + 2) + 4 ≤ len) (hlen : len ≤ 32767) :
    dns_makequery msgid 0 (dotted labels) len =
      { ret := 12 + (((dotted labels).length : Int) + 2) + 4
        bytes := [((msgid + 1) % 65536) / 256, ((msgid + 1) % 65536) % 256] ++ [0x01, 0x00]
          ++ [0, 1] ++ [0, 0] ++ [0, 0] ++ [0, 0] ++ encodeLabels labels ++ [0] ++ [0, 1]
          ++ [0, 1]
        msgid := (msgid + 1) % 65536 }
    ∧ (dns_makequery msgid 0 (bytesOf "www.example.com") 256).bytes.drop 2 =
        [0x01, 0x00] ++ [0, 1] ++ [0, 0] ++ [0, 0] ++ [0, 0]
          ++ ([3] ++ bytesOf "www" ++ [7] ++ bytesOf "example" ++ [3] ++ bytesOf "com" ++ [0])
          ++ [0, 1] ++ [0, 1]
    ∧ (dns_makequery msgid 0 (bytesOf "www.example.com") 256).ret = 33 := by
  have hid : put16 ((msgid + 1) % 65536)
      = [((msgid + 1) % 65536) / 256, ((msgid + 1) % 65536) % 256] := by
    unfold put16
    have h1 : ((msgid + 1) % 65536) >>> 8 = ((msgid + 1) % 65536) / 256 := by
      rw [Nat.shiftRight_eq_div_pow]
    have h2 : ((msgid + 1) % 65536) / 256 % 256 = ((msgid + 1) % 65536) / 256 :=
      Nat.mod_eq_of_lt (by omega)
    rw [h1, h2]
  have hex : bytesOf "www.example.com"
      = dotted [bytesOf "www", bytesOf "example", bytesOf "com"] := by
    decide
  have hw := dns_makequery_labels 63 (by omega) msgid 256
    [bytesOf "www", bytesOf "example", bytesOf "com"] (by decide) (by decide) (by decide)
  refine ⟨?_, ?_, ?_⟩
  · rw [dns_makequery_labels 63 (by omega) msgid len labels hne hv (by omega), hid]
  · rw [hex, hw, hid]
    rfl
  · rw [hex, hw]
    rfl

theorem C1_dns_makequery_builds_query_witness :
    dns_makequery 0x1122 0 (dotted [bytesOf "a", bytesOf "bc"]) 256 =
      { ret := 12 + (((dotted [bytesOf "a", bytesOf "bc"]).length : Int) + 2) + 4
        bytes := [((0x1122 + 1) % 65536) / 256, ((0x1122 + 1) % 65536) % 256] ++ [0x01, 0x00]
          ++ [0, 1] ++ [0, 0] ++ [0, 0] ++ [0, 0]
          ++ encodeLabels [bytesOf "a", bytesOf "bc"] ++ [0] ++ [0, 1] ++ [0, 1]
        msgid := (0x1122 + 1) % 65536 } :=
  (C1_dns_makequery_builds_query exampleConfig 0x1122 256 [bytesOf "a", bytesOf "bc"]
    (by decide) (by decide) (by decide) (by decide) (by decide)).1

/-- C2 (as stated, refuted). The string that `parse_name` decodes from the label
sequence `dns_makequery` stored for "www.example.com" is "www.example.com." (with a
closing dot), which is not the original dotted string. -/
theorem C2_roundtrip_counterexample :
    (parse_name (writeBytes (memOf []) 0
        (dns_makequery 0x1122 0 (bytesOf "www.example.com") 256).bytes) 12 24).out
      = bytesOf "www.example.com." ++ [0]
    ∧ (parse_name (writeBytes (memOf []) 0
        (dns_makequery 0x1122 0 (bytesOf "www.example.com") 256).bytes) 12 24).out
      ≠ bytesOf "www.example.com" ++ [0] := by
  decide

/-- C2 (amended). Round trip: for every dotted name with 1 to 127 non-empty labels
(each at most 63 bytes) that fits the buffers of `dns_makequery` (`sname`, of
`MAXCNAME` characters, and `buf`, of `cap` bytes) and whose decoded form fits the
output budget `len`, decoding with `parse_name` the uncompressed label sequence that
`dns_makequery` stores for that name (at offset 12 of the message) yields the
original dotted string followed by one closing dot (and the terminating NUL), and
returns the length of the field. -/
theorem C2_roundtrip_closing_dot (cfg : Config) (m : Mem) (msgid cap : Nat) (len : Int)
    (labels : List (List Nat)) (hne : labels ≠ []) (hcount : labels.length ≤ 127)
    (hv : ∀ l ∈ labels, ValidLabel 63 l)
    (_hsname : snameFits cfg (dotted labels))
    (_hbuf : 12 + ((dotted labels).length + 2) + 4 ≤ cap)
    (hfit : ((dotted labels).length : Int) + 2 ≤ len) (h15 : len ≤ 32767) :
    parse_name (writeBytes m 0 (dns_makequery msgid 0 (dotted labels) cap).bytes) 12 len
      = { ret := ((dotted labels).length : Int) + 2, out := dotted labels ++ [46] ++ [0] } := by
  have hle := encodeLabels_length_le labels hv
  have hel := encodeLabels_length 63 labels hne hv
  have hm := makequery_holdsAt m msgid cap labels hne hv (by omega)
  rw [parse_name_labels _ 12 len labels hv hm (by omega) h15]
  have hn0 : labels.length ≠ 0 := by
    intro h; exact hne (List.length_eq_zero.mp h)
  unfold parse_name_finish
  rw [if_neg hn0, dottedDot_eq labels hne, hel]
  congr 1

theorem C2_roundtrip_closing_dot_witness :
    parse_name (writeBytes (memOf []) 0
        (dns_makequery 0x1122 0 (dotted [bytesOf "a", bytesOf "bc"]) 256).bytes) 12 24
      = { ret := ((dotted [bytesOf "a", bytesOf "bc"]).length : Int) + 2,
          out := dotted [bytesOf "a", bytesOf "bc"] ++ [46] ++ [0] } :=
  C2_roundtrip_closing_dot exampleConfig (memOf []) 0x1122 256 24 [bytesOf "a", bytesOf "bc"]
    (by decide) (by decide) (by decide) (by decide) (by decide) (by decide) (by decide)

/-- C3. For every message in which a name starts at offset `p < 2^14` uncompressed
(its first byte is a label length or the zero byte, not a compression pointer),
decoding a 2-byte compression pointer to `p` (bytes `0xC0 | p>>8`, `p & 0xFF`)
placed at `q` in the same message, with the same output budget, stores the identical
string as decoding the occurrence at `p`, fails exactly when that decoding fails,
and returns 2 when it succeeds. -/
theorem C3_pointer_decodes_identically (msg : Mem) (p q : Nat) (len : Int)
    (hp : p < 16384) (hq0 : rd msg q = 0xC0 ||| (p >>> 8)) (hq1 : rd msg (q + 1) = p &&& 0xFF)
    (hfirst : rd msg p &&& 0xc0 ≠ 0xc0) :
    (parse_name msg q len).out = (parse_name msg p len).out
    ∧ ((parse_name msg q len).ret = -1 ↔ (parse_name msg p len).ret = -1)
    ∧ ((parse_name msg p len).ret ≠ -1 → (parse_name msg q len).ret = 2) := by
  obtain ⟨r1, hr1⟩ := Option.isSome_iff_exists.mp (parse_name_loop_total msg p len 0 false 0 [])
  obtain ⟨r2, hr2⟩ := Option.isSome_iff_exists.mp (parse_name_loop_total msg q len 0 false 0 [])
  have e1 : parse_name msg p len = r1 := get_of_eq_some _ hr1
  have e2 : parse_name msg q len = r2 := get_of_eq_some _ hr2
  rw [e1, e2]
  have hsp := read_seg_label msg p 0 false hfirst
  have hsq := read_seg_pointer msg q p 0 false hp hq0 hq1
  change parse_name_loop msg (32767 + 1) p (toInt16 len) 0 false 0 [] = some r1 at hr1
  change parse_name_loop msg (32767 + 1) q (toInt16 len) 0 false 0 [] = some r2 at hr2
  unfold parse_name_loop at hr1 hr2
  simp only [hsp] at hr1
  simp only [hsq] at hr2
  by_cases hz : rd msg p = 0
  · rw [if_pos hz] at hr1 hr2
    cases hr1; cases hr2
    simp [parse_name_finish]
  · rw [if_neg hz] at hr1 hr2
    by_cases hneg : toInt16 (toInt16 len - ((rd msg p : Int) + 1)) < 0
    · rw [if_pos hneg] at hr1 hr2
      cases hr1; cases hr2
      simp
    · rw [if_neg hneg] at hr1 hr2
      simp only [Bool.false_eq_true, if_false, if_true] at hr1 hr2
      obtain ⟨r2', h2', hout, hret⟩ := parse_name_loop_out_indep msg _ _ _ _ (0 + 1 + 1) false
        true _ _ r1 (by omega) (by omega) hr1
      rw [hr2] at h2'
      cases h2'
      have hind := parse_name_loop_indirect_ret msg _ _ _ _ _ _ r2 hr2
      refine ⟨hout, hret, ?_⟩
      intro hne
      rcases hind with h | h
      · simpa using h
      · exact absurd (hret.mp h) hne

theorem C3_pointer_decodes_identically_witness :
    (parse_name (memOf ([0, 0, 7] ++ bytesOf "example" ++ [3] ++ bytesOf "com" ++ [0, 0xC0, 2]))
        15 24).out
      = (parse_name (memOf ([0, 0, 7] ++ bytesOf "example" ++ [3] ++ bytesOf "com"
          ++ [0, 0xC0, 2])) 2 24).out
    ∧ (parse_name (memOf ([0, 0, 7] ++ bytesOf "example" ++ [3] ++ bytesOf "com" ++ [0, 0xC0, 2]))
        15 24).out = bytesOf "example.com." ++ [0]
    ∧ (parse_name (memOf ([0, 0, 7] ++ bytesOf "example" ++ [3] ++ bytesOf "com" ++ [0, 0xC0, 2]))
        15 24).ret = 2 :=
  ⟨(C3_pointer_decodes_identically
      (memOf ([0, 0, 7] ++ bytesOf "example" ++ [3] ++ bytesOf "com" ++ [0, 0xC0, 2]))
      2 15 24 (by decide) (by decide) (by decide) (by decide)).1,
    by decide, by decide⟩

/-- C4. Whenever `parse_name` succeeds, its result is the number of bytes the name
field occupies at the original cursor: the sum of (label length + 1) over the labels
that precede the first compression pointer, plus 2 for that pointer, or plus 1 for
the closing zero byte when the field has no pointer (`NameField`); nothing read
after following a pointer is counted, so a field that is a bare pointer returns 2
whatever the referenced name. -/
theorem C4_parse_name_returns_field_length (msg : Mem) (cp : Nat) (len : Int)
    (hok : (parse_name msg cp len).ret ≠ -1) :
    (∃ n, NameField msg cp n ∧ (parse_name msg cp len).ret = n)
    ∧ (rd msg cp &&& 0xc0 = 0xc0 → (parse_name msg cp len).ret = 2) := by
  obtain ⟨r, hr⟩ := Option.isSome_iff_exists.mp (parse_name_loop_total msg cp len 0 false 0 [])
  have e : parse_name msg cp len = r := get_of_eq_some _ hr
  rw [e] at hok ⊢
  obtain ⟨n, hn, hret⟩ := parse_name_loop_ret msg _ _ _ _ _ _ r hr hok
  refine ⟨⟨n, hn, by simpa using hret⟩, ?_⟩
  intro hp
  have := NameField_unique msg cp n 2 hn (NameField.pointer cp hp)
  rw [hret, this]
  rfl

theorem C4_parse_name_returns_field_length_witness :
    (parse_name (memOf ([0, 0, 7] ++ bytesOf "example" ++ [3] ++ bytesOf "com"
        ++ [0, 3] ++ bytesOf "www" ++ [0xC0, 2])) 15 24).ret ≠ -1
    ∧ ((∃ n, NameField (memOf ([0, 0, 7] ++ bytesOf "example" ++ [3] ++ bytesOf "com"
          ++ [0, 3] ++ bytesOf "www" ++ [0xC0, 2])) 15 n
        ∧ (parse_name (memOf ([0, 0, 7] ++ bytesOf "example" ++ [3] ++ bytesOf "com"
          ++ [0, 3] ++ bytesOf "www" ++ [0xC0, 2])) 15 24).ret = n)
      ∧ (rd (memOf ([0, 0, 7] ++ bytesOf "example" ++ [3] ++ bytesOf "com"
          ++ [0, 3] ++ bytesOf "www" ++ [0xC0, 2])) 15 &&& 0xc0 = 0xc0 →
        (parse_name (memOf ([0, 0, 7] ++ bytesOf "example" ++ [3] ++ bytesOf "com"
          ++ [0, 3] ++ bytesOf "www" ++ [0xC0, 2])) 15 24).ret = 2)) :=
  ⟨by decide, C4_parse_name_returns_field_length _ 15 24 (by decide)⟩

/-- C7. For every message, `parseDNSMSG` decodes the 12-byte header per the wire
layout: id = bytes 0-1 big-endian; from the big-endian flags word in bytes 2-3,
qr = bit 15, opcode = bits 14..11, aa = bit 10, tc = bit 9, rd = bit 8, ra = bit 7,
rcode = bits 3..0; qdcount, ancount, nscount, arcount = bytes 4-5, 6-7, 8-9, 10-11
big-endian. The three reserved bits 6..4 influence no field: storing any value `z`
in them leaves the decoded header unchanged. -/
theorem C7_header_layout (cfg : Config) (msg : Mem) (ip : List Nat) (z : Nat) :
    (parseDNSMSG cfg msg ip).hdr =
      { id := rd msg 0 * 256 + rd msg 1
        qr := flagsWord msg / 2 ^ 15 % 2
        opcode := flagsWord msg / 2 ^ 11 % 16
        aa := flagsWord msg / 2 ^ 10 % 2
        tc := flagsWord msg / 2 ^ 9 % 2
        rd := flagsWord msg / 2 ^ 8 % 2
        ra := flagsWord msg / 2 ^ 7 % 2
        rcode := flagsWord msg % 16
        qdcount := rd msg 4 * 256 + rd msg 5
        ancount := rd msg 6 * 256 + rd msg 7
        nscount := rd msg 8 * 256 + rd msg 9
        arcount := rd msg 10 * 256 + rd msg 11 }
    ∧ (parseDNSMSG cfg
          (writeBytes msg 3 [rd msg 3 / 128 * 128 + z % 8 * 16 + rd msg 3 % 16]) ip).hdr
        = (parseDNSMSG cfg msg ip).hdr := by
  refine ⟨by rw [parseDNSMSG_hdr, parse_header_eq], ?_⟩
  rw [parseDNSMSG_hdr, parseDNSMSG_hdr, parse_header_eq, parse_header_eq]
  have h3 := rd_lt msg 3
  have hv : (rd msg 3 / 128 * 128 + z % 8 * 16 + rd msg 3 % 16) % 256
      = rd msg 3 / 128 * 128 + z % 8 * 16 + rd msg 3 % 16 := Nat.mod_eq_of_lt (by omega)
  unfold flagsWord
  simp only [rd_writeBytes_eq, hv,
    rd_writeBytes_ne msg 3 _ 0 (by omega), rd_writeBytes_ne msg 3 _ 1 (by omega),
    rd_writeBytes_ne msg 3 _ 2 (by omega), rd_writeBytes_ne msg 3 _ 4 (by omega),
    rd_writeBytes_ne msg 3 _ 5 (by omega), rd_writeBytes_ne msg 3 _ 6 (by omega),
    rd_writeBytes_ne msg 3 _ 7 (by omega), rd_writeBytes_ne msg 3 _ 8 (by omega),
    rd_writeBytes_ne msg 3 _ 9 (by omega), rd_writeBytes_ne msg 3 _ 10 (by omega),
    rd_writeBytes_ne msg 3 _ 11 (by omega)]
  congr 1 <;> omega

/-- C6 (the code at the failing input). The outcome -1 does not follow the names
of the declared records once a TXT record is among the answers, because
`dns_answer` does not skip the rdata of a TXT record. In
`exampleTxtBadNameResponse` the TXT record at offset 12 has 1 byte of rdata, so the
second declared answer starts at offset 24; its name fails to decode, yet
`parseDNSMSG` returns 1. In `exampleLongTxtResponse` the TXT record has 64 bytes of
rdata, so the second declared answer, an A record, starts at offset 87; the names
of both records decode, yet `parseDNSMSG` returns -1. -/
theorem C6_parse_error_misreported :
    get16 exampleTxtBadNameResponse 6 = 2
    ∧ (parse_name exampleTxtBadNameResponse 12 (MAXCNAME exampleConfig)).ret = 1
    ∧ get16 exampleTxtBadNameResponse (12 + 1) = TYPE_TXT
    ∧ get16 exampleTxtBadNameResponse (12 + 1 + 8) = 1
    ∧ (parse_name exampleTxtBadNameResponse (12 + 1 + 10 + 1) (MAXCNAME exampleConfig)).ret = -1
    ∧ (parseDNSMSG exampleConfig exampleTxtBadNameResponse [9, 9, 9, 9]).ret = 1
    ∧ get16 exampleLongTxtResponse 6 = 2
    ∧ (parse_name exampleLongTxtResponse 12 (MAXCNAME exampleConfig)).ret = 1
    ∧ get16 exampleLongTxtResponse (12 + 1) = TYPE_TXT
    ∧ get16 exampleLongTxtResponse (12 + 1 + 8) = 64
    ∧ (parse_name exampleLongTxtResponse (12 + 1 + 10 + 64) (MAXCNAME exampleConfig)).ret = 1
    ∧ get16 exampleLongTxtResponse (12 + 1 + 10 + 64 + 1) = TYPE_A
    ∧ (parseDNSMSG exampleConfig exampleLongTxtResponse [9, 9, 9, 9]).ret = -1 := by
  decide

/-- C9 (the code at the failing input). With `exampleConfig`, the invocation of
`DNS_run` that follows `exampleSchedule` finds no data and the retries exhausted:
the state becomes Failed and the value returned is -2; the first invocation in
"request sent" (nothing received, nothing expired, the state unchanged) returns -2
as well. The value returned on the timeout is the value returned while pending. -/
theorem C9_timeout_returns_pending_value :
    (DNS_run exampleConfig
        (exec exampleConfig [8, 8, 8, 8] (bytesOf "a.bc")
          (DNS_init exampleConfig (memOf []), [0, 0, 0, 0]) exampleSchedule).1
        noData [8, 8, 8, 8] (bytesOf "a.bc") [0, 0, 0, 0]).ctx.dnsState = DNS_STATE_FAILED
    ∧ (DNS_run exampleConfig
        (exec exampleConfig [8, 8, 8, 8] (bytesOf "a.bc")
          (DNS_init exampleConfig (memOf []), [0, 0, 0, 0]) exampleSchedule).1
        noData [8, 8, 8, 8] (bytesOf "a.bc") [0, 0, 0, 0]).ret = -2
    ∧ (DNS_run exampleConfig
        (exec exampleConfig [8, 8, 8, 8] (bytesOf "a.bc")
          (DNS_init exampleConfig (memOf []), [0, 0, 0, 0])
          [Event.run noData, Event.run noData]).1
        noData [8, 8, 8, 8] (bytesOf "a.bc") [0, 0, 0, 0]).ctx.dnsState
          = DNS_STATE_SEND_REQUEST
    ∧ (DNS_run exampleConfig
        (exec exampleConfig [8, 8, 8, 8] (bytesOf "a.bc")
          (DNS_init exampleConfig (memOf []), [0, 0, 0, 0])
          [Event.run noData, Event.run noData]).1
        noData [8, 8, 8, 8] (bytesOf "a.bc") [0, 0, 0, 0]).ret = -2 := by
  decide

/-- C10 (the code at the failing input). With `exampleConfig` and the name "a.bc":
the first `sendto` hands over the 22 bytes of the query built in Idle; after the
wait time has elapsed with nothing received, the `sendto` of the retry hands over
no byte at all, the `static` `len` having been overwritten with the value 0 of
`getSn_RX_RSR` by the invocation that polled the transport. -/
theorem C10_retry_sends_empty_datagram :
    (exec exampleConfig [8, 8, 8, 8] (bytesOf "a.bc")
        (DNS_init exampleConfig (memOf []), [0, 0, 0, 0])
        [Event.run noData, Event.run noData, Event.tick, Event.tick, Event.tick,
         Event.run noData, Event.run noData]).1.calls
      = [SockCall.socket,
         SockCall.sendto (dns_makequery 0x1122 0 (bytesOf "a.bc") 256).bytes [8, 8, 8, 8] 53,
         SockCall.sendto [] [8, 8, 8, 8] 53]
    ∧ (dns_makequery 0x1122 0 (bytesOf "a.bc") 256).bytes.length = 22 := by
  decide

/-- C11 (as stated, refuted). A buffer of 3 bytes holds the length byte 5 and two
bytes of the label: `parse_name` does not fail, and the string it stores depends on
the bytes at the indices 3, 4 and 5, behind the end of the buffer (the two memories
agree on the 3 bytes of the buffer, and the two results differ). -/
theorem C11_reads_past_buffer_counterexample :
    readBytes (memOf [5, 97, 98, 99, 100, 101, 0]) 0 3 = [5, 97, 98]
    ∧ readBytes (memOf [5, 97, 98, 1, 2, 3, 0]) 0 3 = [5, 97, 98]
    ∧ parse_name (memOf [5, 97, 98, 99, 100, 101, 0]) 0 24
        = { ret := 7, out := [97, 98, 99, 100, 101, 46, 0] }
    ∧ parse_name (memOf [5, 97, 98, 1, 2, 3, 0]) 0 24
        = { ret := 7, out := [97, 98, 1, 2, 3, 46, 0] } := by
  decide

/-- C11 (amended). The decoder is bounded by the output budget, not by the size of
the message buffer. For every message and every name field made of labels of at
most 63 bytes followed by a length byte `b` (1 to 191) that declares more bytes,
with their dot, than remain in the output budget `len`, decoding fails with the
parse-error outcome: `parse_name` returns -1 (its result is fixed by the bytes up to
that length byte, so no byte behind it is read), and with `len = MAXCNAME`
`dns_question` and `dns_answer` return the null pointer and `parseDNSMSG` returns -1
when the field is the name of the first question. -/
theorem C11_over_budget_label_fails (cfg : Config) (msg : Mem) (cp : Nat) (len : Int)
    (ip : List Nat) (labels : List (List Nat)) (b : Nat)
    (hv : ∀ l ∈ labels, ValidLabel 63 l)
    (hm : HoldsAt msg cp (encodeLabels labels ++ [b]))
    (hb0 : b ≠ 0) (hb : b < 192)
    (hlen : ((encodeLabels labels).length : Int) ≤ len) (h15 : len ≤ 32767)
    (hover : len < ((encodeLabels labels).length : Int) + b + 1) :
    parse_name msg cp len = { ret := -1, out := dottedDot labels }
    ∧ (len = MAXCNAME cfg → dns_question cfg msg cp = none)
    ∧ (len = MAXCNAME cfg → (dns_answer cfg msg cp ip).cp = none)
    ∧ (len = MAXCNAME cfg → cp = 12 → 1 ≤ get16 msg 4 →
        (parseDNSMSG cfg msg ip).ret = -1) := by
  have hp := parse_name_over_budget msg cp len labels b hv hm hb0 hb hlen h15 hover
  have hq : len = MAXCNAME cfg → dns_question cfg msg cp = none := by
    intro hl
    rw [dns_question_none_iff, ← hl, hp]
  refine ⟨hp, hq, ?_, ?_⟩
  · intro hl
    rw [dns_answer_none_iff]
    left
    rw [← hl, hp]
  · intro hl hcp hqd
    subst hcp
    have hq1 := hq hl
    have hqdc : (parse_header msg).qdcount = get16 msg 4 := rfl
    obtain ⟨k, hk⟩ : ∃ k, get16 msg 4 = k + 1 := ⟨get16 msg 4 - 1, by omega⟩
    unfold parseDNSMSG
    simp only [hqdc, hk, question_loop, hq1]

theorem C11_over_budget_label_fails_witness :
    parse_name (memOf ([0, 0, 0, 0, 0, 1, 0, 0, 0, 0, 0, 0]
        ++ encodeLabels [bytesOf "www"] ++ [63])) 12 (MAXCNAME exampleConfig)
      = { ret := -1, out := dottedDot [bytesOf "www"] }
    ∧ (parseDNSMSG exampleConfig (memOf ([0, 0, 0, 0, 0, 1, 0, 0, 0, 0, 0, 0]
        ++ encodeLabels [bytesOf "www"] ++ [63])) [0, 0, 0, 0]).ret = -1 :=
  have h := C11_over_budget_label_fails exampleConfig
    (memOf ([0, 0, 0, 0, 0, 1, 0, 0, 0, 0, 0, 0] ++ encodeLabels [bytesOf "www"] ++ [63]))
    12 (MAXCNAME exampleConfig) [0, 0, 0, 0] [bytesOf "www"] 63
    (by decide) (by decide) (by decide) (by decide) (by decide) (by decide) (by decide)
  ⟨h.1, h.2.2.2 rfl rfl (by decide)⟩

/-- C13 (as stated, refuted). For "www.example.com", which fits `sname` with
`exampleConfig`, and `len = 10`, `dns_makequery` returns 33, the length of the 33
bytes it stored, not an error. With `wideNameConfig` (`MAXCNAME` = 192) a name that
is one segment of 64 bytes fits `sname`, and `dns_makequery` returns 82, the length
of the message it stored (with the length byte 64 at offset 12), not an error. -/
theorem C13_no_failure_counterexample :
    snameFits exampleConfig (bytesOf "www.example.com")
    ∧ (dns_makequery 0x1122 0 (bytesOf "www.example.com") 10).ret = 33
    ∧ (dns_makequery 0x1122 0 (bytesOf "www.example.com") 10).bytes.length = 33
    ∧ snameFits wideNameConfig (List.replicate 64 97)
    ∧ (dns_makequery 0x1122 0 (List.replicate 64 97) 256).ret = 82
    ∧ (dns_makequery 0x1122 0 (List.replicate 64 97) 256).bytes.length = 82
    ∧ (dns_makequery 0x1122 0 (List.replicate 64 97) 256).bytes.getD 12 0 = 64 := by
  decide

/-- C13 (amended). `dns_makequery` has no check on the length of a segment: for
`op = 0` and every name made of non-empty segments of at most 255 bytes (those of 64
to 255 bytes included) that fits `sname` (`MAXCNAME` characters) and whose message
fits the buffer of `len` bytes, it stores each segment behind its length byte and
returns the length of the message, `12 + (length of name + 2) + 4`, as for shorter
segments. -/
theorem C13_long_segments_are_encoded (cfg : Config) (msgid len : Nat)
    (labels : List (List Nat))
    (hne : labels ≠ []) (hv : ∀ l ∈ labels, ValidLabel 255 l)
    (_hsname : snameFits cfg (dotted labels))
    (hbuf : 12 + ((dotted labels).length + 2) + 4 ≤ len) (hlen : len ≤ 32767) :
    (dns_makequery msgid 0 (dotted labels) len).ret
        = 12 + (((dotted labels).length : Int) + 2) + 4
    ∧ (dns_makequery msgid 0 (dotted labels) len).bytes.drop 12
        = encodeLabels labels ++ [0] ++ [0, 1] ++ [0, 1] := by
  rw [dns_makequery_labels 255 (by omega) msgid len labels hne hv (by omega)]
  refine ⟨rfl, ?_⟩
  simp [put16]

theorem C13_long_segments_are_encoded_witness :
    snameFits wideNameConfig (dotted [List.replicate 64 97, bytesOf "com"])
    ∧ (dns_makequery 0x1122 0 (dotted [List.replicate 64 97, bytesOf "com"]) 256).ret
        = 12 + (((dotted [List.replicate 64 97, bytesOf "com"]).length : Int) + 2) + 4
    ∧ (dns_makequery 0x1122 0 (dotted [List.replicate 64 97, bytesOf "com"]) 256).bytes.drop 12
        = encodeLabels [List.replicate 64 97, bytesOf "com"] ++ [0] ++ [0, 1] ++ [0, 1] :=
  ⟨by decide,
    C13_long_segments_are_encoded wideNameConfig 0x1122 256
      [List.replicate 64 97, bytesOf "com"]
      (by decide) (by decide) (by decide) (by decide) (by decide)⟩

/-- C14 (the code at the failing input). In `exampleTxtResponse` the TXT record
starts at offset 12 with a name of 1 byte and has 1 byte of rdata, so the next
record starts at offset 12 + 1 + 10 + 1 = 24. `dns_answer` returns the offset 23,
the start of the rdata: it skips no payload byte. `parseDNSMSG` then decodes the
second record from offset 23, does not see the A record that starts at offset 24,
and returns 1 with the output address left as it was, not 1.2.3.4. -/
theorem C14_txt_rdata_not_skipped :
    get16 exampleTxtResponse (12 + 1) = TYPE_TXT
    ∧ get16 exampleTxtResponse (12 + 1 + 8) = 1
    ∧ (dns_answer exampleConfig exampleTxtResponse 12 [9, 9, 9, 9]).cp = some 23
    ∧ (dns_answer exampleConfig exampleTxtResponse 24 [9, 9, 9, 9]).ip = [1, 2, 3, 4]
    ∧ (parseDNSMSG exampleConfig exampleTxtResponse [9, 9, 9, 9]).ret = 1
    ∧ (parseDNSMSG exampleConfig exampleTxtResponse [9, 9, 9, 9]).ip = [9, 9, 9, 9] := by
  decide

/-- C16. `check_DNS_timeout` returns 1 and changes nothing when
`dns_1s_tick < DNS_WAIT_TIME`; when `dns_1s_tick >= DNS_WAIT_TIME` it resets
`dns_1s_tick` to 0 and either returns -1 and resets `retry_count` to 0 if
`retry_count >= MAX_DNS_RETRY`, or returns 0 and increments `retry_count` by exactly
one if `retry_count < MAX_DNS_RETRY`. (`MAX_DNS_RETRY` fits the `uint8_t` counter.) -/
theorem C16_check_DNS_timeout (cfg : Config) (c : Ctx) (hmax : cfg.MAX_DNS_RETRY ≤ 255) :
    (c.dns_1s_tick < cfg.DNS_WAIT_TIME → check_DNS_timeout cfg c = (1, c))
    ∧ (cfg.DNS_WAIT_TIME ≤ c.dns_1s_tick → cfg.MAX_DNS_RETRY ≤ c.retry_count →
        check_DNS_timeout cfg c = (-1, { c with dns_1s_tick := 0, retry_count := 0 }))
    ∧ (cfg.DNS_WAIT_TIME ≤ c.dns_1s_tick → c.retry_count < cfg.MAX_DNS_RETRY →
        check_DNS_timeout cfg c
          = (0, { c with dns_1s_tick := 0, retry_count := c.retry_count + 1 })) := by
  refine ⟨?_, ?_, ?_⟩
  · intro ht
    have ht2 : ¬ (c.dns_1s_tick ≥ cfg.DNS_WAIT_TIME) := by omega
    unfold check_DNS_timeout
    rw [if_neg ht2]
  · intro ht hr
    have ht2 : c.dns_1s_tick ≥ cfg.DNS_WAIT_TIME := ht
    have hr2 : c.retry_count ≥ cfg.MAX_DNS_RETRY := hr
    unfold check_DNS_timeout
    simp only [if_pos ht2, if_pos hr2]
  · intro ht hr
    have ht2 : c.dns_1s_tick ≥ cfg.DNS_WAIT_TIME := ht
    have hr2 : ¬ (c.retry_count ≥ cfg.MAX_DNS_RETRY) := by omega
    have hm : (c.retry_count + 1) % 256 = c.retry_count + 1 := Nat.mod_eq_of_lt (by omega)
    unfold check_DNS_timeout
    simp only [if_pos ht2, if_neg hr2, hm]

theorem C16_check_DNS_timeout_witness :
    (check_DNS_timeout exampleConfig
        { DNS_init exampleConfig (memOf []) with dns_1s_tick := 3, retry_count := 1 }).1 = 0
    ∧ (check_DNS_timeout exampleConfig
        { DNS_init exampleConfig (memOf []) with dns_1s_tick := 3, retry_count := 1 }).2.retry_count
        = 2 :=
  have h := (C16_check_DNS_timeout exampleConfig
    { DNS_init exampleConfig (memOf []) with dns_1s_tick := 3, retry_count := 1 }
    (by decide)).2.2 (by decide) (by decide)
  ⟨by rw [h], by rw [h]⟩

/-- C17 (the code at the failing input). On the field `3 a b c 0` with `len = 4`
`parse_name` returns the length 5 and has stored the 5 bytes "abc." and NUL; on the
root name with `len = 1` it returns 1 and has stored the 2 bytes "." and NUL; and
on `exampleFullName`, decoded as `dns_question` does with `len = MAXCNAME = 24` into
`char name[MAXCNAME]`, it returns 25 and has stored 25 bytes. The budget is checked
for the labels and their dots only, not for the terminating NUL nor for the dot of
the root name. -/
theorem C17_nul_written_past_len :
    parse_name (memOf [3, 97, 98, 99, 0]) 0 4 = { ret := 5, out := [97, 98, 99, 46, 0] }
    ∧ parse_name (memOf [0]) 0 1 = { ret := 1, out := [46, 0] }
    ∧ MAXCNAME exampleConfig = 24
    ∧ (parse_name exampleFullName 12 (MAXCNAME exampleConfig)).ret = 25
    ∧ (parse_name exampleFullName 12 (MAXCNAME exampleConfig)).out.length = 25
    ∧ dns_question exampleConfig exampleFullName 12 = some 41 := by
  decide

/-- C19 (the code at the failing input). In `examplePointerChain` the name "a" at
offset 0 decodes to "a.", and so does the pointer to it at offset 3; the pointer at
offset 5, which refers to the pointer at offset 3, does not: the byte 0xC0 found at
offset 3 is taken for a label of 192 bytes, so that on the budget 24 the result is
-1, and on the budget 300 the 192 bytes that follow offset 3 are stored as a label
(the first of them are 0, 0xC0, 3, 0). -/
theorem C19_pointer_to_pointer_not_followed :
    parse_name examplePointerChain 0 24 = { ret := 3, out := [97, 46, 0] }
    ∧ parse_name examplePointerChain 3 24 = { ret := 2, out := [97, 46, 0] }
    ∧ parse_name examplePointerChain 5 24 = { ret := -1, out := [] }
    ∧ (parse_name examplePointerChain 5 300).ret = 2
    ∧ (parse_name examplePointerChain 5 300).out.take 4 = [0, 0xC0, 3, 0] := by
  decide

/-- C21. For every message content, every start offset and every output budget
`len >= 0` (an `int16_t`), `parse_name` terminates, including on pointer cycles:
each loop iteration that does not exit lowers the remaining budget by at least 2, so
the loop is left within `floor(len/2) + 1` entries of its body (that step budget
gives the result of `parse_name`) and at most `floor(len/2)` labels are copied. -/
theorem C21_parse_name_terminates (msg : Mem) (cp : Nat) (len : Int)
    (h0 : 0 ≤ len) (h15 : len ≤ 32767) :
    parse_name_loop msg (len.toNat / 2 + 1) cp len 0 false 0 [] = some (parse_name msg cp len)
    ∧ (∃ iters nseg,
        parse_name_count msg (len.toNat / 2 + 1) cp len false 0 0 = some (iters, nseg)
        ∧ iters ≤ len.toNat / 2 + 1 ∧ nseg ≤ len.toNat / 2)
    ∧ (∀ (cp2 : Nat) (len2 clen : Int) (indirect : Bool), 0 ≤ len2 → len2 ≤ 32767 →
        (read_seg msg cp2 clen indirect).slen ≠ 0 →
        ¬ toInt16 (len2 - (((read_seg msg cp2 clen indirect).slen : Int) + 1)) < 0 →
        toInt16 (len2 - (((read_seg msg cp2 clen indirect).slen : Int) + 1)) ≤ len2 - 2
        ∧ 0 ≤ toInt16 (len2 - (((read_seg msg cp2 clen indirect).slen : Int) + 1))) := by
  have hconv : toInt16 len = len := toInt16_of_range _ (by omega) h15
  have hfuel : len < 2 * ((len.toNat / 2 + 1 : Nat) : Int) := by
    have := Int.toNat_of_nonneg h0
    omega
  have hsome := parse_name_loop_nonneg msg (len.toNat / 2 + 1) cp len 0 false 0 [] h0 h15 hfuel
  refine ⟨?_, ?_, ?_⟩
  · obtain ⟨r, hr⟩ := Option.isSome_iff_exists.mp hsome
    rw [hr, parse_name_eq_of_loop msg cp len (len.toNat / 2 + 1) r (by rw [hconv]; exact hr)]
  · have hc := parse_name_count_isSome msg (len.toNat / 2 + 1) cp len 0 false 0 [] 0 0
    rw [hsome] at hc
    obtain ⟨c, hcs⟩ := Option.isSome_iff_exists.mp hc
    obtain ⟨b1, b2⟩ := parse_name_count_bound msg _ _ _ _ _ _ c hcs
    refine ⟨c.1, c.2, hcs, ?_, ?_⟩
    · omega
    · omega
  · intro cp2 len2 clen indirect g0 g15 hz hn
    exact budget_step msg cp2 len2 clen indirect g0 g15 hz hn

theorem C21_parse_name_terminates_witness :
    parse_name_loop examplePointerCycle (Int.toNat 24 / 2 + 1) 0 24 0 false 0 []
      = some (parse_name examplePointerCycle 0 24)
    ∧ parse_name_count examplePointerCycle (Int.toNat 24 / 2 + 1) 0 24 false 0 0 = some (13, 12)
    ∧ (parse_name examplePointerCycle 0 24).ret = -1 :=
  ⟨(C21_parse_name_terminates examplePointerCycle 0 24 (by decide) (by decide)).1,
    by decide, by decide⟩

end DNS
